import Mathlib

/-
Verification of the gacha database editor (bot/tools/database_editor.py).

Modelling conventions:
- A JSON table is an insertion-ordered association list `List (Nat × α)`.
  The on-disk keys are string-encoded positive integers; a lookup that the
  Python code performs with a *string* key against such a table is modelled
  as a search for an entry whose stringified key equals that string.
- Python floats are modelled as rationals; `math.isclose(a, b, rel_tol=t)`
  (with the default `abs_tol = 0.0`) is `|a - b| <= max (t * max |a| |b|) 0`.
- Each editor invocation is one process: load, mutate in memory, save when
  the operation decides to.  An operation is a function returning
  `Except String (Database × Bool)`; the `Bool` records whether the database
  was saved.  `runStep` gives the persisted-state transition: a raised
  validation error or a skipped save leaves the persisted state unchanged.
- `print` diagnostics carry no state and are dropped, except for
  `__validate_pool_total_rate`, whose warning is modelled as a `Bool`.
-/

section GachaEditor

attribute [local semireducible] Rat.add Rat.sub Rat.mul

/-- Association-list table, mirroring one JSON table keyed by integer ids. -/
abbrev Table (α : Type) := List (Nat × α)

deriving instance DecidableEq for Except

/-- Record of the `items` table.  `rank` and `is_single_stigmata` are the
optional fields; `is_single_stigmata := false` models the absent key, since
`__add_item_internal` only ever stores the value `True`. -/
structure Item where
  name : String
  type : String
  rank : Option String := none
  is_single_stigmata : Bool := false
deriving Repr, DecidableEq

/-- Rate bucket of a loot table; both fields are optional in the JSON. -/
structure Bucket where
  rate : Option ℚ := none
  items : Option (List Nat) := none
deriving Repr, DecidableEq

/-- Record of the `pools` table. -/
structure Pool where
  name : String
  code : String
  available : Bool := true
  loot_table : Option (List Bucket) := none
deriving Repr, DecidableEq

/-- The whole database.  `item_types` is unused by every operation and is
omitted.  A `none` table models an absent top-level key. -/
structure Database where
  items : Option (Table Item) := none
  pools : Option (Table Pool) := none
deriving Repr, DecidableEq

/-- Python dict assignment `table[k] = v`: replaces in place when the key is
present, appends otherwise. -/
def dictInsert {α : Type} (t : Table α) (k : Nat) (v : α) : Table α :=
  if t.any fun kv => kv.1 == k then
    t.map fun kv => if kv.1 == k then (k, v) else kv
  else t ++ [(k, v)]

/-- Python dict lookup `table.get(k)` by integer key. -/
def dictGet {α : Type} (t : Table α) (k : Nat) : Option α :=
  (t.find? fun kv => kv.1 == k).map fun kv => kv.2

/-- Removal of the first entry satisfying a predicate, mirroring
`dict.pop` (dict keys are unique, so at most one entry ever matches). -/
def popFirst {α : Type} (p : Nat × α → Bool) : Table α → Table α
  | [] => []
  | kv :: rest => if p kv then rest else kv :: popFirst p rest

/-- Field access `item.get(field_name, "")` compared against a string value,
as used by `__find_ids_by_field` with `is_exact=True`.  Fields that hold
non-string values (booleans, lists) never compare equal to a string; an
absent field compares as the empty string. -/
def itemMatchesField (it : Item) (field value : String) : Bool :=
  match field with
  | "name" => it.name == value
  | "type" => it.type == value
  | "rank" =>
    match it.rank with
    | some r => r == value
    | none => "" == value
  | "is_single_stigmata" => if it.is_single_stigmata then false else "" == value
  | _ => "" == value

/-- Field access for pool records, analogous to `itemMatchesField`. -/
def poolMatchesField (p : Pool) (field value : String) : Bool :=
  match field with
  | "name" => p.name == value
  | "code" => p.code == value
  | _ => false

/-- The generator `__find_ids_by_field` for the pools table (exact mode). -/
def find_ids_by_field_pools (pools : Table Pool) (field value : String) : List Nat :=
  (pools.filter fun kv => poolMatchesField kv.2 field value).map fun kv => kv.1

/-- The helper `_find_id_by_field` for the pools table: first match or none. -/
def find_id_by_field_pools (pools : Table Pool) (field value : String) : Option Nat :=
  (pools.find? fun kv => poolMatchesField kv.2 field value).map fun kv => kv.1

/-- The helper `__find_item_id`: first item whose `name` equals the given one. -/
def find_item_id (items : Table Item) (itemName : String) : Option Nat :=
  (items.find? fun kv => itemMatchesField kv.2 "name" itemName).map fun kv => kv.1

/-- The helper `__find_valkyrie_fragment_id`. -/
def find_valkyrie_fragment_id (items : Table Item) (valkyrieName : String) : Option Nat :=
  (find_item_id items (valkyrieName ++ " fragment")).orElse
    fun _ => find_item_id items (valkyrieName ++ " soul")

/-- The id allocator `_get_next_id`: `1` for an absent table, otherwise
`max(int(key) for key in table.keys(), default=0) + 1`. -/
def get_next_id {α : Type} (table : Option (Table α)) : Nat :=
  match table with
  | none => 1
  | some t => (t.map fun kv => kv.1).foldl max 0 + 1

/-- The static helper `_aggregate`: a left fold written as the source loop. -/
def aggregate {α β : Type} : List α → β → (β → α → β) → β
  | [], seed, _ => seed
  | x :: xs, seed, f => aggregate xs (f seed x) f

/-- The module constant `DROP_RATE_TOLERANCE = 1e-5`. -/
def DROP_RATE_TOLERANCE : ℚ := mkRat 1 100000

/-- Python `math.isclose(a, b, rel_tol=rt)` with the default `abs_tol = 0.0`. -/
def isclose (a b rt : ℚ) : Bool := |a - b| <= max (rt * max |a| |b|) 0

/-- The Rate Ledger `__get_pool_total_rate`. -/
def get_pool_total_rate (db : Database) (poolCode : String) : ℚ :=
  let table := db.pools.getD []
  match find_id_by_field_pools table "code" poolCode with
  | none => 0
  | some pid =>
    match dictGet table pid with
    | none => 0
    | some pool =>
      let lt := pool.loot_table.getD []
      if lt.length = 0 then 0
      else aggregate lt 0 fun c b => c + b.rate.getD 0

/-- The Rate Ledger `__validate_pool_total_rate`; `true` means the warning
line is printed.  The check only prints, it never alters the database. -/
def validate_pool_total_rate (db : Database) (poolCode : String) : Bool :=
  let total := get_pool_total_rate db poolCode
  !(isclose total 0 DROP_RATE_TOLERANCE) && !(isclose total 1 DROP_RATE_TOLERANCE)

/-- The helper `__add_item_internal`: allocate the next id and store the
record; returns the updated database and the new id. -/
def add_item_internal (db : Database) (item_name item_type : String)
    (item_rank : Option String) (is_single : Bool) : Database × Nat :=
  let table := db.items.getD []
  let next_key := get_next_id (some table)
  let item : Item :=
    { name := item_name, type := item_type, rank := item_rank,
      is_single_stigmata := is_single }
  ({ db with items := some (dictInsert table next_key item) }, next_key)

/-- The operation `additem`.  `item_type` is the parsed `--type` value; the
guard mirrors `if not options.type` (a Python string is falsy exactly when
empty).  Saves once at the end, even when `names` adds nothing. -/
def additem (db : Database) (item_type : String) (item_rank : Option String)
    (is_single : Bool) (names : List String) : Except String (Database × Bool) :=
  if item_type == "" then .error "the item type must be specified"
  else
    let db' := names.foldl
      (fun d nm => (add_item_internal d nm item_type item_rank is_single).1) db
    .ok (db', true)

/-- The argparse default for `--type`: an omitted flag parses to `"0"`. -/
def parse_type_flag (cli : Option String) : String := cli.getD "0"

/-- The operation `deleteitem`.  Per name: when `options.field` is falsy
(absent or the empty string) the name is first tried as a direct key
(`table.pop(name, None)`, comparing against the stringified integer keys);
when that test fails and a field was given (including the empty string), all
records matching the field query are popped.  Saves iff anything was
removed.  The popped record of a successful direct pop is a nonempty dict,
hence always truthy. -/
def deleteOneName (field : Option String) (st : Table Item × Bool) (nm : String) :
    Table Item × Bool :=
  match field with
  | none =>
    if (st.1.find? fun kv => toString kv.1 == nm).isSome then
      (popFirst (fun kv => toString kv.1 == nm) st.1, true)
    else st
  | some f =>
    if (f == "") && ((st.1.find? fun kv => toString kv.1 == nm).isSome) then
      (popFirst (fun kv => toString kv.1 == nm) st.1, true)
    else
      if ((st.1.filter fun kv => itemMatchesField kv.2 f nm).map
          fun kv => kv.1).isEmpty then st
      else (((st.1.filter fun kv => itemMatchesField kv.2 f nm).map
          fun kv => kv.1).foldl
          (fun tt i => popFirst (fun kv => kv.1 == i) tt) st.1, true)

def deleteitem (db : Database) (field : Option String) (names : List String) :
    Database × Bool :=
  let res := names.foldl (deleteOneName field) (db.items.getD [], false)
  ({ db with items := some res.1 }, res.2)

/-- The operation `addpool`.  The existence guard is the literal
`table.get(options.names[0])`: the code string is looked up among the
*storage keys* of the pools table, not among the `code` fields. -/
def addpool (db : Database) (code poolName : String) : Except String (Database × Bool) :=
  let table := db.pools.getD []
  if (table.find? fun kv => toString kv.1 == code).isSome then
    .error "the specified pool already exists"
  else
    let pool : Pool :=
      { name := poolName, code := code, available := true, loot_table := some [] }
    .ok ({ db with pools := some (dictInsert table (get_next_id (some table)) pool) }, true)

/-- Item list of a bucket: `descriptor.get("items", [])`. -/
def bucketItems (b : Bucket) : List Nat := b.items.getD []

/-- The removal scan shared by `addpoolitem` and `removepoolitem`: walk the
loot table in order, erase the first occurrence of the item id from the
first bucket that contains it, and drop that bucket when its item list
becomes empty. -/
def removeItemOnce : List Bucket → Nat → List Bucket
  | [], _ => []
  | b :: rest, itemId =>
    if itemId ∈ bucketItems b then
      if ((bucketItems b).erase itemId).isEmpty then rest
      else { b with items := some ((bucketItems b).erase itemId) } :: rest
    else b :: removeItemOnce rest itemId

/-- First element satisfying a predicate, split out with its prefix and
suffix.  This is the zipper for the loot-table bucket that the Python code
holds by reference as `matching_descriptor`. -/
def splitFirst {α : Type} (p : α → Bool) : List α → Option (List α × α × List α)
  | [] => none
  | b :: rest =>
    if p b then some ([], b, rest)
    else (splitFirst p rest).map fun x => (b :: x.1, x.2.1, x.2.2)

/-- One iteration of the `addpoolitem` name loop over the zipper state
(buckets before the target, the target bucket item list, buckets after the
target, the `has_changed` flag).  An unresolvable name and a name already
in the target bucket are skipped; otherwise the item is removed from the
first other bucket holding it and appended to the target list. -/
def addOneName (items : Table Item) (st : List Bucket × List Nat × List Bucket × Bool)
    (nm : String) : List Bucket × List Nat × List Bucket × Bool :=
  match find_item_id items nm with
  | none => st
  | some itemId =>
    if itemId ∈ st.2.1 then st
    else if st.1.any fun b => itemId ∈ bucketItems b then
      (removeItemOnce st.1 itemId, st.2.1 ++ [itemId], st.2.2.1, true)
    else
      (st.1, st.2.1 ++ [itemId], removeItemOnce st.2.2.1 itemId, true)

/-- Loot-table-level body of `addpoolitem`: locate or create the target
bucket (the first whose rate is `isclose` to the requested one, else a
fresh bucket appended at the end), run the name loop, reassemble, and
report the save decision `has_changed and len(item_list) > 0`. -/
def addpoolitem_core (items : Table Item) (lt : List Bucket) (rate : ℚ)
    (names : List String) : List Bucket × Bool :=
  let found := splitFirst (fun b => isclose (b.rate.getD 0) rate DROP_RATE_TOLERANCE) lt
  let pre0 := match found with | some x => x.1 | none => lt
  let tgtRate := match found with | some x => x.2.1.rate | none => some rate
  let tgt0 := match found with | some x => bucketItems x.2.1 | none => []
  let post0 := match found with | some x => x.2.2 | none => []
  let res := names.foldl (addOneName items) (pre0, tgt0, post0, found.isNone)
  (res.1 ++ ({ rate := tgtRate, items := some res.2.1 } : Bucket) :: res.2.2.1,
    res.2.2.2 && !res.2.1.isEmpty)

/-- The operation `addpoolitem`. -/
def addpoolitem (db : Database) (poolCode : String) (rate : ℚ) (names : List String) :
    Except String (Database × Bool) :=
  if rate < 0 ∨ rate > 1 then
    .error "the drop rate must be between 0.0 inclusive and 1.0 inclusive"
  else
    let table := db.pools.getD []
    match find_id_by_field_pools table "code" poolCode with
    | none => .error "the specified pool does not exist"
    | some pid =>
      match dictGet table pid with
      | none => .error "the specified pool does not exist"
      | some pool =>
        let res := addpoolitem_core (db.items.getD []) (pool.loot_table.getD []) rate names
        .ok ({ db with
          pools := some (dictInsert table pid { pool with loot_table := some res.1 }) },
          res.2)

/-- One iteration of the `removepoolitem` name loop: skip an unresolvable
name, otherwise remove the item from the first bucket holding it when it is
in the pool at all, setting `has_changed`. -/
def removeOneName (items : Table Item) (st : List Bucket × Bool) (nm : String) :
    List Bucket × Bool :=
  match find_item_id items nm with
  | none => st
  | some itemId =>
    if st.1.any fun b => itemId ∈ bucketItems b then
      (removeItemOnce st.1 itemId, true)
    else st

/-- Loot-table-level body of `removepoolitem`. -/
def removepoolitem_core (items : Table Item) (lt : List Bucket)
    (names : List String) : List Bucket × Bool :=
  names.foldl (removeOneName items) (lt, false)

/-- The operation `removepoolitem`: saves iff anything changed. -/
def removepoolitem (db : Database) (poolCode : String) (names : List String) :
    Except String (Database × Bool) :=
  let table := db.pools.getD []
  match find_id_by_field_pools table "code" poolCode with
  | none => .error "the specified pool does not exist"
  | some pid =>
    match dictGet table pid with
    | none => .error "the specified pool does not exist"
    | some pool =>
      let res := removepoolitem_core (db.items.getD []) (pool.loot_table.getD []) names
      .ok ({ db with
        pools := some (dictInsert table pid { pool with loot_table := some res.1 }) },
        res.2)

/-- The helper `__replace_pool_item_internal`: in the first bucket holding
the old id, erase the old id and append the new id; `none` when no bucket
holds the old id. -/
def replace_pool_item_internal : List Bucket → Nat → Nat → Option (List Bucket)
  | [], _, _ => none
  | b :: rest, oldId, newId =>
    if oldId ∈ bucketItems b then
      some ({ b with items := some ((bucketItems b).erase oldId ++ [newId]) } :: rest)
    else (replace_pool_item_internal rest oldId newId).map fun r => b :: r

/-- The helper `__replace_pool_item`: resolve both names, then substitute. -/
def replace_pool_item (items : Table Item) (lt : List Bucket) (oldNm newNm : String) :
    Option (List Bucket) :=
  match find_item_id items oldNm with
  | none => none
  | some oldId =>
    match find_item_id items newNm with
    | none => none
    | some newId => replace_pool_item_internal lt oldId newId

/-- The helper `__replace_pool_valkyrie_fragment`. -/
def replace_pool_valkyrie_fragment (items : Table Item) (lt : List Bucket)
    (oldNm newNm : String) : Option (List Bucket) :=
  match find_valkyrie_fragment_id items oldNm with
  | none => none
  | some oldId =>
    match find_valkyrie_fragment_id items newNm with
    | none => none
    | some newId => replace_pool_item_internal lt oldId newId

/-- Pairing of the positional names: `zip(names[0::2], names[1::2])`. -/
def toPairs : List String → List (String × String)
  | a :: b :: rest => (a, b) :: toPairs rest
  | _ => []

/-- Loot-table-level body of `replacepoolitem`: per (old, new) pair, skip
when either name is unresolvable or the old item is in no bucket;
otherwise substitute, and with `--fragments` also substitute the paired
fragment or soul items (whose own failure is ignored). -/
def replaceOnePair (items : Table Item) (fragments : Bool)
    (st : List Bucket × Bool) (pr : String × String) : List Bucket × Bool :=
  match replace_pool_item items st.1 pr.1 pr.2 with
  | none => st
  | some lt1 =>
    if fragments then
      match replace_pool_valkyrie_fragment items lt1 pr.1 pr.2 with
      | none => (lt1, true)
      | some lt2 => (lt2, true)
    else (lt1, true)

/-- Loot-table-level body of `replacepoolitem`, folding `replaceOnePair`. -/
def replacepoolitem_core (items : Table Item) (lt : List Bucket) (fragments : Bool)
    (pairs : List (String × String)) : List Bucket × Bool :=
  pairs.foldl (replaceOnePair items fragments) (lt, false)

/-- The operation `replacepoolitem`: fails on an odd name count; saves iff
any pair succeeded. -/
def replacepoolitem (db : Database) (poolCode : String) (fragments : Bool)
    (names : List String) : Except String (Database × Bool) :=
  if names.length % 2 ≠ 0 then .error "you must specify name pairs"
  else
    let pools := db.pools.getD []
    match find_id_by_field_pools pools "code" poolCode with
    | none => .error "the specified pool does not exist"
    | some pid =>
      match dictGet pools pid with
      | none => .error "the specified pool does not exist"
      | some pool =>
        let res := replacepoolitem_core (db.items.getD []) (pool.loot_table.getD [])
          fragments (toPairs names)
        .ok ({ db with
          pools := some (dictInsert pools pid { pool with loot_table := some res.1 }) },
          res.2)

/-- The operation `clonepool`: resolve the source by code, copy the record
(`deepcopy` is a value copy here), overwrite name and code, store under the
next pool id, save. -/
def clonepool (db : Database) (srcCode newCode newName : String) :
    Except String (Database × Bool) :=
  let pools := db.pools.getD []
  match find_id_by_field_pools pools "code" srcCode with
  | none => .error "the pool with the specified identifier does not exist"
  | some pid =>
    match dictGet pools pid with
    | none => .error "the pool with the specified identifier does not exist"
    | some pool =>
      let newPool := { pool with name := newName, code := newCode }
      .ok ({ db with pools := some (dictInsert pools (get_next_id (some pools)) newPool) }, true)

/-- Persisted-state transition of one editor invocation: a raised error or
a skipped save leaves the saved database unchanged. -/
def runStep (r : Except String (Database × Bool)) (db : Database) : Database :=
  match r with
  | .error _ => db
  | .ok (db', saved) => if saved then db' else db

/-- The three loot-table mutating operations, as data for sequencing. -/
inductive MutOp where
  | addItems (poolCode : String) (rate : ℚ) (names : List String)
  | removeItems (poolCode : String) (names : List String)
  | replaceItems (poolCode : String) (fragments : Bool) (names : List String)
deriving Repr, DecidableEq

/-- Persisted effect of one loot-table mutating invocation. -/
def MutOp.apply (db : Database) : MutOp → Database
  | .addItems c r ns => runStep (addpoolitem db c r ns) db
  | .removeItems c ns => runStep (removepoolitem db c ns) db
  | .replaceItems c f ns => runStep (replacepoolitem db c f ns) db

/-- Persisted effect of a sequence of editor invocations. -/
def applySeq (db : Database) (ops : List MutOp) : Database := ops.foldl MutOp.apply db

/-- Discriminator for the replacement operation. -/
def MutOp.isReplace : MutOp → Bool
  | .replaceItems _ _ _ => true
  | _ => false

/-- Pool code an operation addresses. -/
def MutOp.targetCode : MutOp → String
  | .addItems c _ _ => c
  | .removeItems c _ => c
  | .replaceItems c _ _ => c

/-- Concatenated item ids of a loot table, bucket by bucket. -/
def itemsJoin (lt : List Bucket) : List Nat := (lt.map bucketItems).flatten

/-- The pool invariants claimed by the spec: no bucket with an empty item
list, and each item id in at most one bucket and at most once there (the
concatenation of all buckets has no duplicates). -/
def PoolInv (lt : List Bucket) : Prop :=
  (∀ b ∈ lt, bucketItems b ≠ []) ∧ (itemsJoin lt).Nodup

/-- The pool invariants, over every pool of the database. -/
def DbInv (db : Database) : Prop :=
  ∀ kv ∈ db.pools.getD [], PoolInv (kv.2.loot_table.getD [])

instance (lt : List Bucket) : Decidable (PoolInv lt) := by
  unfold PoolInv; infer_instance

instance (db : Database) : Decidable (DbInv db) := by
  unfold DbInv; infer_instance

/-- Modelled from the spec: the Rate Ledger contract of section 4.4, "sums
the `rate` of every bucket in the named pool's loot table; returns `0.0`
for a non-existent pool or empty table", with a missing `rate` read as 0. -/
def total_rate_spec (db : Database) (poolCode : String) : ℚ :=
  match find_id_by_field_pools (db.pools.getD []) "code" poolCode with
  | none => 0
  | some pid =>
    match dictGet (db.pools.getD []) pid with
    | none => 0
    | some pool => ((pool.loot_table.getD []).map fun b => b.rate.getD 0).sum

/-- Codes of all pools, in storage order. -/
def poolCodes (db : Database) : List String :=
  (db.pools.getD []).map fun kv => kv.2.code

/-- Keys of a table, in storage order. -/
def tableKeys {α : Type} (t : Table α) : List Nat := t.map fun kv => kv.1

/-- Insertion of one record under the id returned by the allocator, the
shape shared by every add operation. -/
def insertFresh {α : Type} (t : Table α) (v : α) : Table α :=
  dictInsert t (get_next_id (some t)) v

/-- Repeated fresh insertion, for the id-allocation scenario of the spec. -/
def iterInsert {α : Type} (t : Table α) (v : α) : Nat → Table α
  | 0 => t
  | n + 1 => iterInsert (insertFresh t v) v n

/-- Boolean safety condition under which one `replacepoolitem` pair
preserves the pool invariants: whenever both names resolve and the pool
exists, the new item id equals the old one or is absent from the pool. -/
def replaceSafeB (db : Database) (poolCode oldNm newNm : String) : Bool :=
  match find_item_id (db.items.getD []) oldNm,
      find_item_id (db.items.getD []) newNm,
      find_id_by_field_pools (db.pools.getD []) "code" poolCode with
  | some oldId, some newId, some pid =>
    match dictGet (db.pools.getD []) pid with
    | some pool =>
      newId == oldId || !((itemsJoin (pool.loot_table.getD [])).contains newId)
    | none => true
  | _, _, _ => true

/-- Fixture: one pool whose code is `ex`, stored under id 1. -/
def db_c1 : Database :=
  { items := none,
    pools := some [(1,
      { name := "Expansion Battlesuit", code := "ex", available := true,
        loot_table := some [] })] }

/-- Fixture: two pools with distinct codes `a` and `b`. -/
def db_c3 : Database :=
  { items := none,
    pools := some
      [(1, { name := "Pool A", code := "a", available := true, loot_table := some [] }),
       (2, { name := "Pool B", code := "b", available := true, loot_table := some [] })] }

/-- Fixture item records. -/
def itemA : Item := { name := "Item A", type := "0" }

/-- Fixture item records. -/
def itemB : Item := { name := "Item B", type := "0" }

/-- Fixture: two items and one pool whose single bucket holds both. -/
def db_c2 : Database :=
  { items := some [(1, itemA), (2, itemB)],
    pools := some [(1,
      { name := "Pool P", code := "p", available := true,
        loot_table := some [{ rate := some (mkRat 1 2), items := some [1, 2] }] })] }

/-- Loot table of the pool stored under a given id, empty when absent. -/
def poolLoot (db : Database) (pid : Nat) : List Bucket :=
  ((dictGet (db.pools.getD []) pid).map fun p => p.loot_table.getD []).getD []

/-- Fixture: a pool holding item 1 in a single bucket of rate 1/10. -/
def pool_c7 : Pool :=
  { name := "Pool C7", code := "p", available := true,
    loot_table := some [{ rate := some (mkRat 1 10), items := some [1] }] }

/-- Fixture: two items and the pool `pool_c7` under id 1. -/
def db_c7 : Database :=
  { items := some [(1, { name := "Foo", type := "0" }),
      (2, { name := "Bar", type := "0" })],
    pools := some [(1, pool_c7)] }

/-- Fixture: a lone item stored under id 1, for the deleteitem claims. -/
def db_c9 : Database :=
  { items := some [(1, itemA)], pools := none }

/-- Fixture: source pool for cloning, code `a`. -/
def pool_c8 : Pool :=
  { name := "Source", code := "a", available := true,
    loot_table := some [{ rate := some (mkRat 1 2), items := some [1] }] }

/-- Fixture: one item and the pool `pool_c8` under id 1. -/
def db_c8 : Database :=
  { items := some [(1, itemA)], pools := some [(1, pool_c8)] }

/-- Fixture: a pool whose single bucket has the tiny rate 1/100000. -/
def db_c5_small : Database :=
  { items := none,
    pools := some [(1,
      { name := "Small", code := "p", available := true,
        loot_table := some [{ rate := some (mkRat 1 100000), items := some [1] }] })] }

/-- Fixture: a pool whose total rate is 1 + 1/1000000. -/
def db_c5_high : Database :=
  { items := none,
    pools := some [(1,
      { name := "High", code := "p", available := true,
        loot_table := some [{ rate := some (mkRat 1000001 1000000), items := some [1] }] })] }

/-- Fixture: a pool whose total rate is 1/2. -/
def db_c5_half : Database :=
  { items := none,
    pools := some [(1,
      { name := "Half", code := "p", available := true,
        loot_table := some [{ rate := some (mkRat 1 2), items := some [1] }] })] }

/- ------------------------------------------------------------------ -/
/- Helper lemmas.                                                      -/
/- ------------------------------------------------------------------ -/

theorem mem_dictInsert {α : Type} {t : Table α} {k : Nat} {v : α} {kv : Nat × α}
    (h : kv ∈ dictInsert t k v) : kv ∈ t ∨ kv = (k, v) := by
  unfold dictInsert at h
  split at h
  · rcases List.mem_map.mp h with ⟨kv', hmem, heq⟩
    by_cases hk : (kv'.1 == k) = true
    · rw [if_pos hk] at heq
      exact Or.inr heq.symm
    · rw [if_neg hk] at heq
      exact Or.inl (heq ▸ hmem)
  · rcases List.mem_append.mp h with h₁ | h₂
    · exact Or.inl h₁
    · right
      simpa using h₂

theorem find_id_by_field_pools_mem {t : Table Pool} {f v : String} {pid : Nat}
    (h : find_id_by_field_pools t f v = some pid) :
    ∃ p, (pid, p) ∈ t ∧ poolMatchesField p f v = true := by
  unfold find_id_by_field_pools at h
  rcases Option.map_eq_some'.mp h with ⟨kv, hfind, hfst⟩
  have hp := List.find?_some hfind
  have hm := List.mem_of_find?_eq_some hfind
  refine ⟨kv.2, ?_, hp⟩
  have hkv : ((pid, kv.2) : Nat × Pool) = kv := by
    rw [← hfst, Prod.mk.eta]
  rw [hkv]
  exact hm

theorem dictGet_mem {α : Type} {t : Table α} {k : Nat} {v : α}
    (h : dictGet t k = some v) : (k, v) ∈ t := by
  unfold dictGet at h
  rcases Option.map_eq_some'.mp h with ⟨kv, hfind, hsnd⟩
  have hm := List.mem_of_find?_eq_some hfind
  have hk' : kv.1 = k := by simpa using List.find?_some hfind
  have hkv : ((k, v) : Nat × α) = kv := by
    rw [← hk', ← hsnd, Prod.mk.eta]
  rw [hkv]
  exact hm

theorem find_id_dictGet {t : Table Pool} {f v : String} {pid : Nat}
    (h : find_id_by_field_pools t f v = some pid) :
    ∃ p, dictGet t pid = some p := by
  rcases find_id_by_field_pools_mem h with ⟨p, hmem, _⟩
  have : (t.find? fun kv => kv.1 == pid).isSome := by
    rw [List.find?_isSome]
    exact ⟨(pid, p), hmem, by simp⟩
  rcases Option.isSome_iff_exists.mp this with ⟨kv, hkv⟩
  exact ⟨kv.2, by unfold dictGet; rw [hkv]; rfl⟩

theorem le_foldl_max_init : ∀ (l : List Nat) (a : Nat), a ≤ l.foldl max a
  | [], _ => le_refl _
  | x :: xs, a => le_trans (le_max_left a x) (le_foldl_max_init xs (max a x))

theorem le_foldl_max_mem : ∀ (l : List Nat) (a x : Nat), x ∈ l → x ≤ l.foldl max a
  | y :: ys, a, x, h => by
    rcases List.mem_cons.mp h with rfl | h'
    · exact le_trans (le_max_right a x) (le_foldl_max_init ys (max a x))
    · exact le_foldl_max_mem ys (max a y) x h'

theorem foldl_max_le : ∀ (l : List Nat) (a m : Nat), a ≤ m → (∀ x ∈ l, x ≤ m) →
    l.foldl max a ≤ m
  | [], _, _, ha, _ => ha
  | x :: xs, a, m, ha, h => by
    refine foldl_max_le xs (max a x) m ?_ fun y hy => h y (List.mem_cons_of_mem _ hy)
    exact max_le ha (h x (List.mem_cons_self _ _))

theorem mem_key_lt_next {α : Type} {t : Table α} {kv : Nat × α} (h : kv ∈ t) :
    kv.1 < get_next_id (some t) := by
  have h1 : kv.1 ≤ (t.map fun kv => kv.1).foldl max 0 :=
    le_foldl_max_mem _ 0 _ (List.mem_map.mpr ⟨kv, h, rfl⟩)
  show kv.1 < (t.map fun kv => kv.1).foldl max 0 + 1
  omega

theorem dictInsert_fresh {α : Type} {t : Table α} {k : Nat} {v : α}
    (h : ∀ kv ∈ t, kv.1 ≠ k) : dictInsert t k v = t ++ [(k, v)] := by
  unfold dictInsert
  have : (t.any fun kv => kv.1 == k) = false := by
    rw [List.any_eq_false]
    intro kv hkv
    simpa using h kv hkv
  rw [this]
  simp

theorem find?_update_ne {α : Type} (t : Table α) (k k' : Nat) (v : α) (h : k ≠ k') :
    ((t.map fun kv => if kv.1 == k then (k, v) else kv).find? fun kv => kv.1 == k')
      = t.find? fun kv => kv.1 == k' := by
  induction t with
  | nil => rfl
  | cons kv rest ih =>
    by_cases hk : (kv.1 == k) = true
    · have hkk : kv.1 = k := by simpa using hk
      have h1 : (((k, v) : Nat × α).1 == k') = false := by simpa using h
      have h2 : (kv.1 == k') = false := by
        rw [hkk]
        simpa using h
      rw [List.map_cons, if_pos hk]
      simp only [List.find?_cons, h1, h2, cond_false]
      exact ih
    · rw [List.map_cons, if_neg hk]
      by_cases hk' : (kv.1 == k') = true
      · simp only [List.find?_cons, hk', cond_true]
      · have hk'f : (kv.1 == k') = false := by simpa using hk'
        simp only [List.find?_cons, hk'f, cond_false]
        exact ih

theorem dictGet_dictInsert_ne {α : Type} {t : Table α} {k k' : Nat} {v : α}
    (h : k ≠ k') : dictGet (dictInsert t k v) k' = dictGet t k' := by
  unfold dictInsert
  split
  · unfold dictGet
    rw [find?_update_ne t k k' v h]
  · unfold dictGet
    rw [List.find?_append]
    have h1 : (([(k, v)] : Table α).find? fun kv => kv.1 == k') = none := by
      have hf : (((k, v) : Nat × α).1 == k') = false := by simpa using h
      simp only [List.find?_cons, hf, cond_false, List.find?_nil]
    rw [h1]
    cases t.find? fun kv => kv.1 == k' <;> simp

theorem dictGet_append_right {α : Type} {t : Table α} {k : Nat} {v : α}
    (h : ∀ kv ∈ t, kv.1 ≠ k) : dictGet (t ++ [(k, v)]) k = some v := by
  unfold dictGet
  rw [List.find?_append]
  have : (t.find? fun kv => kv.1 == k) = none := by
    rw [List.find?_eq_none]
    intro kv hkv
    simpa using h kv hkv
  rw [this]
  simp

/- ------------------------------------------------------------------ -/
/- Tolerance facts.                                                    -/
/- ------------------------------------------------------------------ -/

theorem tol_pos : (0 : ℚ) < DROP_RATE_TOLERANCE := by decide

theorem tol_lt_one : DROP_RATE_TOLERANCE < 1 := by decide

theorem isclose_zero_iff (t : ℚ) :
    isclose t 0 DROP_RATE_TOLERANCE = true ↔ t = 0 := by
  simp only [isclose, decide_eq_true_eq, sub_zero, abs_zero]
  rw [max_eq_left (abs_nonneg t),
    max_eq_left (mul_nonneg tol_pos.le (abs_nonneg t))]
  constructor
  · intro h
    by_contra hne
    have habs : 0 < |t| := abs_pos.mpr hne
    have : DROP_RATE_TOLERANCE * |t| < 1 * |t| :=
      mul_lt_mul_of_pos_right tol_lt_one habs
    rw [one_mul] at this
    linarith
  · rintro rfl
    simp

theorem isclose_one_of_near {t : ℚ} (h : |t - 1| ≤ mkRat 1 1000000) :
    isclose t 1 DROP_RATE_TOLERANCE = true := by
  simp only [isclose, decide_eq_true_eq]
  have h1 : |(1 : ℚ)| = 1 := by norm_num
  have h2 : (1 : ℚ) ≤ max |t| |(1 : ℚ)| := by
    rw [h1]; exact le_max_right _ _
  have h3 : DROP_RATE_TOLERANCE ≤ DROP_RATE_TOLERANCE * max |t| |(1 : ℚ)| := by
    calc DROP_RATE_TOLERANCE = DROP_RATE_TOLERANCE * 1 := by ring
    _ ≤ DROP_RATE_TOLERANCE * max |t| |(1 : ℚ)| :=
        mul_le_mul_of_nonneg_left h2 tol_pos.le
  have h4 : mkRat 1 1000000 ≤ DROP_RATE_TOLERANCE := by decide
  exact le_max_of_le_left (le_trans (le_trans h h4) h3)

/- ------------------------------------------------------------------ -/
/- Claim theorems.                                                     -/
/- ------------------------------------------------------------------ -/

/-- Claim C6: `total_rate(pool_code)` equals the exact sum of the `rate`
fields of every bucket of the named pool (a missing `rate` counting as 0),
and equals 0 when no pool has that code or the loot table is empty: the
implementation agrees with the spec-side definition `total_rate_spec`. -/
theorem c6_total_rate_correct (db : Database) (poolCode : String) :
    get_pool_total_rate db poolCode = total_rate_spec db poolCode := by
  unfold get_pool_total_rate total_rate_spec
  cases hfind : find_id_by_field_pools (db.pools.getD []) "code" poolCode with
  | none => simp only [hfind]
  | some pid =>
    simp only [hfind]
    cases hget : dictGet (db.pools.getD []) pid with
    | none => simp only [hget]
    | some pool =>
      simp only [hget]
      have agg : ∀ (l : List Bucket) (q : ℚ),
          aggregate l q (fun c b => c + b.rate.getD 0) =
            q + (l.map fun b => b.rate.getD 0).sum := by
        intro l
        induction l with
        | nil => intro q; simp [aggregate]
        | cons b rest ih => intro q; simp [aggregate, ih]; ring
      split
      · next hlen =>
        rw [List.length_eq_zero.mp hlen]
        simp
      · next hlen =>
        rw [agg]
        simp

/-- Claim C5 (counterexample): a pool total of 1/100000 is within the
claimed tolerance 1e-5 of 0.0, yet the validation warning fires, because
`math.isclose` against 0.0 with a relative tolerance accepts only an exact
zero. -/
theorem c5_counterexample :
    |get_pool_total_rate db_c5_small "p" - 0| ≤ DROP_RATE_TOLERANCE
      ∧ validate_pool_total_rate db_c5_small "p" = true := by
  constructor
  · decide
  · decide

/-- Claim C5 (amended): `validate(pool_code)` warns exactly when the total
rate is not exactly 0 and not within relative tolerance 1e-5 of 1.0; in
particular a total of 1.0 ± 1e-6 never warns and a total of 0.5 always
warns.  (Near-zero but nonzero totals warn; the check itself is a pure
predicate over the database, so it cannot block a mutation.) -/
theorem c5_amended :
    (∀ (db : Database) (c : String),
      validate_pool_total_rate db c = true ↔
        (get_pool_total_rate db c ≠ 0 ∧
          isclose (get_pool_total_rate db c) 1 DROP_RATE_TOLERANCE = false))
    ∧ (∀ (db : Database) (c : String),
        |get_pool_total_rate db c - 1| ≤ mkRat 1 1000000 →
          validate_pool_total_rate db c = false)
    ∧ (∀ (db : Database) (c : String),
        get_pool_total_rate db c = mkRat 1 2 →
          validate_pool_total_rate db c = true) := by
  refine ⟨fun db c => ?_, fun db c h => ?_, fun db c h => ?_⟩
  · simp only [validate_pool_total_rate]
    rw [Bool.and_eq_true, Bool.not_eq_true', Bool.not_eq_true']
    constructor
    · rintro ⟨h0, h1⟩
      refine ⟨?_, h1⟩
      intro hz
      rw [(isclose_zero_iff _).mpr hz] at h0
      exact Bool.noConfusion h0
    · rintro ⟨h0, h1⟩
      refine ⟨?_, h1⟩
      cases hz : isclose (get_pool_total_rate db c) 0 DROP_RATE_TOLERANCE
      · rfl
      · exact absurd ((isclose_zero_iff _).mp hz) h0
  · simp only [validate_pool_total_rate]
    rw [isclose_one_of_near h]
    simp
  · simp only [validate_pool_total_rate]
    rw [h]
    decide

/-- Claim C5 (witness for the amended theorem). -/
theorem c5_amended_witness :
    validate_pool_total_rate db_c5_high "p" = false
      ∧ validate_pool_total_rate db_c5_half "p" = true :=
  ⟨c5_amended.2.1 db_c5_high "p" (by decide),
   c5_amended.2.2 db_c5_half "p" (by decide)⟩

/-- Claim C1 (code bug): `addpool` looks the new code up among the storage
keys of the pools table instead of the `code` fields, so adding code `ex`
while a pool with code `ex` is stored under key 1 succeeds, saves, and
leaves two pools with the same code. -/
theorem c1_addpool_duplicate_code :
    addpool db_c1 "ex" "Another" =
      .ok ({ db_c1 with pools := some ((db_c1.pools.getD []) ++
        [(2, { name := "Another", code := "ex", available := true,
               loot_table := some [] })]) }, true)
      ∧ poolCodes (runStep (addpool db_c1 "ex" "Another") db_c1) = ["ex", "ex"] := by
  constructor
  · decide
  · decide

/-- Claim C3 (code bug): starting from pools with distinct codes, both
`addpool` (whose duplicate check inspects storage keys, not codes) and
`clonepool` (which performs no check at all) produce a database in which
two pools share a code. -/
theorem c3_code_uniqueness_broken :
    (poolCodes db_c3).Nodup
      ∧ ¬ (poolCodes (runStep (addpool db_c3 "b" "Bee Two") db_c3)).Nodup
      ∧ ¬ (poolCodes (runStep (clonepool db_c3 "a" "b" "Clone Of A") db_c3)).Nodup := by
  refine ⟨by decide, by decide, by decide⟩

/-- Claim C10 (counterexample): the validation branch of `additem` is
reachable through the parser by passing an explicitly empty `--type`. -/
theorem c10_counterexample :
    additem { items := none, pools := none } (parse_type_flag (some "")) none false
      ["Foo"] = .error "the item type must be specified" := by
  decide

/-- Claim C10 (amended): for every invocation whose `--type` value is not
the explicit empty string, the "item type must be specified" branch of
`additem` is unreachable, because the flag defaults to the non-empty
string "0"; and every item added without an explicit `--type` receives
type "0". -/
theorem c10_amended :
    (∀ cli : Option String, cli ≠ some "" → parse_type_flag cli ≠ "")
    ∧ parse_type_flag none = "0"
    ∧ (∀ (db : Database) (cli : Option String) (rk : Option String) (sg : Bool)
        (ns : List String), cli ≠ some "" →
          ∃ db', additem db (parse_type_flag cli) rk sg ns = .ok (db', true))
    ∧ (∀ (db : Database) (rk : Option String) (sg : Bool) (ns : List String)
        (db' : Database),
          additem db (parse_type_flag none) rk sg ns = .ok (db', true) →
          ∀ kv ∈ db'.items.getD [], kv ∈ db.items.getD [] ∨ kv.2.type = "0") := by
  have hne : ∀ cli : Option String, cli ≠ some "" → parse_type_flag cli ≠ "" := by
    intro cli h
    cases cli with
    | none => simp [parse_type_flag]
    | some s =>
      simp [parse_type_flag]
      intro hs
      exact h (by rw [hs])
  refine ⟨hne, rfl, ?_, ?_⟩
  · intro db cli rk sg ns h
    unfold additem
    rw [if_neg (by simpa using hne cli h)]
    exact ⟨_, rfl⟩
  · intro db rk sg ns db' hrun kv hkv
    have hfold : db' = ns.foldl
        (fun d nm => (add_item_internal d nm (parse_type_flag none) rk sg).1) db := by
      unfold additem at hrun
      rw [if_neg (by simp [parse_type_flag])] at hrun
      simp only [Except.ok.injEq, Prod.mk.injEq] at hrun
      exact hrun.1.symm
    subst hfold
    clear hrun
    induction ns generalizing db with
    | nil => exact Or.inl hkv
    | cons nm rest ih =>
      rcases ih (add_item_internal db nm (parse_type_flag none) rk sg).1 hkv with h | h
      · have h2 : kv ∈ dictInsert (db.items.getD [])
            (get_next_id (some (db.items.getD [])))
            { name := nm, type := parse_type_flag none, rank := rk,
              is_single_stigmata := sg } := by
          simpa [add_item_internal] using h
        rcases mem_dictInsert h2 with h' | h'
        · exact Or.inl h'
        · right
          rw [h']
          rfl
      · exact Or.inr h

/-- Claim C10 (witness for the amended theorem). -/
theorem c10_amended_witness :
    (additem { items := none, pools := none } (parse_type_flag none) none false
      ["Foo"]).isOk = true := by
  rcases c10_amended.2.2.1 { items := none, pools := none } none none false ["Foo"]
    (by simp) with ⟨db', hdb⟩
  rw [hdb]
  rfl

/- ------------------------------------------------------------------ -/
/- Id allocation (claim C4).                                           -/
/- ------------------------------------------------------------------ -/

theorem foldl_max_of_mem_le {l : List Nat} {m : Nat} (hm : m ∈ l)
    (hb : ∀ x ∈ l, x ≤ m) : l.foldl max 0 = m :=
  le_antisymm (foldl_max_le l 0 m (Nat.zero_le m) hb) (le_foldl_max_mem l 0 m hm)

theorem foldl_max_range' (m : Nat) : (List.range' 1 m).foldl max 0 = m := by
  cases m with
  | zero => rfl
  | succ n =>
    refine foldl_max_of_mem_le ?_ ?_
    · rw [List.mem_range'_1]
      omega
    · intro x hx
      rw [List.mem_range'_1] at hx
      omega

theorem get_next_id_range' {α : Type} {t : Table α} {m : Nat}
    (h : tableKeys t = List.range' 1 m) : get_next_id (some t) = m + 1 := by
  show (t.map fun kv => kv.1).foldl max 0 + 1 = m + 1
  rw [show (t.map fun kv => kv.1) = tableKeys t from rfl, h, foldl_max_range']

theorem tableKeys_insertFresh {α : Type} (t : Table α) (v : α) :
    tableKeys (insertFresh t v) = tableKeys t ++ [get_next_id (some t)] := by
  unfold insertFresh
  rw [dictInsert_fresh fun kv hkv => Nat.ne_of_lt (mem_key_lt_next hkv)]
  unfold tableKeys
  simp

theorem tableKeys_iterInsert_range' {α : Type} (v : α) :
    ∀ (n : Nat) (t : Table α) (m : Nat), tableKeys t = List.range' 1 m →
      tableKeys (iterInsert t v n) = List.range' 1 (m + n) := by
  intro n
  induction n with
  | zero => intro t m h; simpa using h
  | succ n ih =>
    intro t m h
    show tableKeys (iterInsert (insertFresh t v) v n) = List.range' 1 (m + (n + 1))
    have hkeys : tableKeys (insertFresh t v) = List.range' 1 (m + 1) := by
      rw [tableKeys_insertFresh, h, get_next_id_range' h, List.range'_concat]
      have h2 : 1 + 1 * m = m + 1 := by omega
      rw [h2]
    rw [ih (insertFresh t v) (m + 1) hkeys]
    congr 1
    omega

theorem tableKeys_popFirst_key {α : Type} (k : Nat) :
    ∀ t : Table α, tableKeys (popFirst (fun kv => kv.1 == k) t) = (tableKeys t).erase k := by
  intro t
  induction t with
  | nil => rfl
  | cons kv rest ih =>
    by_cases hk : (kv.1 == k) = true
    · have hkk : kv.1 = k := by simpa using hk
      show tableKeys (if (kv.1 == k) = true then rest else
        kv :: popFirst (fun kv => kv.1 == k) rest) = (kv.1 :: tableKeys rest).erase k
      rw [if_pos hk, hkk, List.erase_cons_head]
    · show tableKeys (if (kv.1 == k) = true then rest else
        kv :: popFirst (fun kv => kv.1 == k) rest) = (kv.1 :: tableKeys rest).erase k
      rw [if_neg hk]
      have hne : (kv.1 == k) = false := by simpa using hk
      rw [List.erase_cons, if_neg (by simp [hne])]
      show kv.1 :: tableKeys (popFirst (fun kv => kv.1 == k) rest) = _
      rw [ih]

theorem no_freed_id_reuse {α : Type} (v : α) (N k : Nat) (hkN : k < N) :
    ∀ (j : Nat) (t : Table α), N ∈ tableKeys t → k ∉ tableKeys t →
      k ∉ tableKeys (iterInsert t v j) := by
  intro j
  induction j with
  | zero => intro t _ hk; exact hk
  | succ j ih =>
    intro t hN hk
    show k ∉ tableKeys (iterInsert (insertFresh t v) v j)
    have hfold : N ≤ (t.map fun kv => kv.1).foldl max 0 := le_foldl_max_mem _ 0 _ hN
    have hnext : N < get_next_id (some t) := by
      show N < (t.map fun kv => kv.1).foldl max 0 + 1
      omega
    refine ih (insertFresh t v) ?_ ?_
    · rw [tableKeys_insertFresh]
      exact List.mem_append_left _ hN
    · rw [tableKeys_insertFresh]
      intro hmem
      rcases List.mem_append.mp hmem with h | h
      · exact hk h
      · simp at h
        omega

/-- Claim C4: the id allocator returns 1 for an absent or empty table and
otherwise the maximum existing key plus one; hence after inserting records
with ids 1..N and deleting id k (1 < k < N) it returns N+1, never k, and
no later sequence of fresh insertions ever reissues k. -/
theorem c4_next_id_contract :
    (∀ (α : Type), get_next_id (none : Option (Table α)) = 1)
    ∧ (∀ (α : Type), get_next_id (some ([] : Table α)) = 1)
    ∧ (∀ (α : Type) (t : Table α) (m : Nat), m ∈ tableKeys t →
        (∀ x ∈ tableKeys t, x ≤ m) → get_next_id (some t) = m + 1)
    ∧ (∀ (α : Type) (v : α) (N k : Nat), 1 < k → k < N →
        get_next_id (some (popFirst (fun kv => kv.1 == k)
            (iterInsert ([] : Table α) v N))) = N + 1
          ∧ N + 1 ≠ k
          ∧ ∀ j, k ∉ tableKeys (iterInsert (popFirst (fun kv => kv.1 == k)
              (iterInsert ([] : Table α) v N)) v j)) := by
  refine ⟨fun α => rfl, fun α => rfl, ?_, ?_⟩
  · intro α t m hm hb
    have hfold : (tableKeys t).foldl max 0 = m := foldl_max_of_mem_le hm hb
    show (tableKeys t).foldl max 0 + 1 = m + 1
    rw [hfold]
  · intro α v N k hk1 hkN
    have hkeys0 : tableKeys (iterInsert ([] : Table α) v N) = List.range' 1 N := by
      have := tableKeys_iterInsert_range' v N ([] : Table α) 0 rfl
      simpa using this
    have hkeys1 : tableKeys (popFirst (fun kv => kv.1 == k)
        (iterInsert ([] : Table α) v N)) = (List.range' 1 N).erase k := by
      rw [tableKeys_popFirst_key, hkeys0]
    have hNmem : N ∈ (List.range' 1 N).erase k := by
      refine (List.mem_erase_of_ne (by omega)).mpr ?_
      rw [List.mem_range'_1]
      omega
    have hNbound : ∀ x ∈ (List.range' 1 N).erase k, x ≤ N := by
      intro x hx
      have := List.mem_of_mem_erase hx
      rw [List.mem_range'_1] at this
      omega
    have hknotmem : k ∉ (List.range' 1 N).erase k :=
      (List.nodup_range' 1 N).not_mem_erase
    refine ⟨?_, by omega, ?_⟩
    · show (tableKeys (popFirst (fun kv => kv.1 == k)
        (iterInsert ([] : Table α) v N))).foldl max 0 + 1 = N + 1
      rw [hkeys1, foldl_max_of_mem_le hNmem hNbound]
    · intro j
      refine no_freed_id_reuse v N k hkN j _ ?_ ?_
      · rw [hkeys1]
        exact hNmem
      · rw [hkeys1]
        exact hknotmem

/- ------------------------------------------------------------------ -/
/- Loot-table invariant machinery (claims C2, C7, C8).                 -/
/- ------------------------------------------------------------------ -/

theorem itemsJoin_cons (b : Bucket) (lt : List Bucket) :
    itemsJoin (b :: lt) = bucketItems b ++ itemsJoin lt := rfl

theorem itemsJoin_append (l1 l2 : List Bucket) :
    itemsJoin (l1 ++ l2) = itemsJoin l1 ++ itemsJoin l2 := by
  unfold itemsJoin
  rw [List.map_append, List.flatten_append]

theorem mem_itemsJoin {a : Nat} {lt : List Bucket} :
    a ∈ itemsJoin lt ↔ ∃ b ∈ lt, a ∈ bucketItems b := by
  unfold itemsJoin
  rw [List.mem_flatten]
  constructor
  · rintro ⟨l, hl, ha⟩
    rcases List.mem_map.mp hl with ⟨b, hb, rfl⟩
    exact ⟨b, hb, ha⟩
  · rintro ⟨b, hb, ha⟩
    exact ⟨bucketItems b, List.mem_map.mpr ⟨b, hb, rfl⟩, ha⟩

theorem removeItemOnce_join (i : Nat) :
    ∀ lt : List Bucket, itemsJoin (removeItemOnce lt i) = (itemsJoin lt).erase i := by
  intro lt
  induction lt with
  | nil => rfl
  | cons b rest ih =>
    rw [removeItemOnce]
    by_cases hmem : i ∈ bucketItems b
    · rw [if_pos hmem]
      by_cases hemp : ((bucketItems b).erase i).isEmpty
      · rw [if_pos hemp]
        have he : (bucketItems b).erase i = [] := by
          simpa [List.isEmpty_iff] using hemp
        rw [itemsJoin_cons, List.erase_append_left _ hmem, he, List.nil_append]
      · rw [if_neg hemp, itemsJoin_cons, itemsJoin_cons,
          List.erase_append_left _ hmem]
        rfl
    · rw [if_neg hmem, itemsJoin_cons, itemsJoin_cons, ih,
        List.erase_append_right _ hmem]

theorem removeItemOnce_nonempty {i : Nat} :
    ∀ {lt : List Bucket}, (∀ b ∈ lt, bucketItems b ≠ []) →
      ∀ b ∈ removeItemOnce lt i, bucketItems b ≠ [] := by
  intro lt
  induction lt with
  | nil =>
    intro _ b hb
    simp [removeItemOnce] at hb
  | cons b0 rest ih =>
    intro h b hb
    rw [removeItemOnce] at hb
    by_cases hmem : i ∈ bucketItems b0
    · rw [if_pos hmem] at hb
      by_cases hemp : ((bucketItems b0).erase i).isEmpty
      · rw [if_pos hemp] at hb
        exact h b (List.mem_cons_of_mem _ hb)
      · rw [if_neg hemp] at hb
        rcases List.mem_cons.mp hb with rfl | hb'
        · show (bucketItems b0).erase i ≠ []
          intro hc
          rw [hc] at hemp
          exact hemp rfl
        · exact h b (List.mem_cons_of_mem _ hb')
    · rw [if_neg hmem] at hb
      rcases List.mem_cons.mp hb with rfl | hb'
      · exact h b (List.mem_cons_self _ _)
      · exact ih (fun b hb => h b (List.mem_cons_of_mem _ hb)) b hb'

theorem nodup_move_left {P T Q : List Nat} {i : Nat} (h : (P ++ T ++ Q).Nodup)
    (hT : i ∉ T) (hP : i ∈ P) : ((P.erase i) ++ (T ++ [i]) ++ Q).Nodup := by
  rw [List.nodup_iff_count_le_one] at h ⊢
  intro a
  have ha := h a
  simp only [List.count_append] at ha ⊢
  by_cases hai : a = i
  · subst hai
    rw [List.count_erase_self]
    have hTc : List.count a T = 0 := List.count_eq_zero.mpr hT
    have hPc : 0 < List.count a P := List.count_pos_iff.mpr hP
    have hs : List.count a [a] = 1 := by simp
    rw [hTc, hs]
    omega
  · rw [List.count_erase_of_ne hai]
    have hs : List.count a [i] = 0 := by simp [hai]
    rw [hs]
    omega

theorem nodup_move_right {P T Q : List Nat} {i : Nat} (h : (P ++ T ++ Q).Nodup)
    (hT : i ∉ T) (hP : i ∉ P) : (P ++ (T ++ [i]) ++ Q.erase i).Nodup := by
  rw [List.nodup_iff_count_le_one] at h ⊢
  intro a
  have ha := h a
  simp only [List.count_append] at ha ⊢
  by_cases hai : a = i
  · subst hai
    rw [List.count_erase_self]
    have hTc : List.count a T = 0 := List.count_eq_zero.mpr hT
    have hPc : List.count a P = 0 := List.count_eq_zero.mpr hP
    have hs : List.count a [a] = 1 := by simp
    rw [hTc, hPc, hs]
    omega
  · rw [List.count_erase_of_ne hai]
    have hs : List.count a [i] = 0 := by simp [hai]
    rw [hs]
    omega

theorem addOneName_inv (items : Table Item) (nm : String) (pre : List Bucket)
    (tgt : List Nat) (post : List Bucket) (hc : Bool)
    (hne : ∀ b ∈ pre ++ post, bucketItems b ≠ [])
    (hnd : (itemsJoin pre ++ tgt ++ itemsJoin post).Nodup) :
    (∀ b ∈ (addOneName items (pre, tgt, post, hc) nm).1 ++
        (addOneName items (pre, tgt, post, hc) nm).2.2.1, bucketItems b ≠ []) ∧
    (itemsJoin (addOneName items (pre, tgt, post, hc) nm).1 ++
        (addOneName items (pre, tgt, post, hc) nm).2.1 ++
        itemsJoin (addOneName items (pre, tgt, post, hc) nm).2.2.1).Nodup ∧
    (∃ s, (addOneName items (pre, tgt, post, hc) nm).2.1 = tgt ++ s) := by
  cases hfind : find_item_id items nm with
  | none =>
    simp only [addOneName, hfind]
    exact ⟨hne, hnd, [], by simp⟩
  | some i =>
    simp only [addOneName, hfind]
    by_cases htgt : i ∈ tgt
    · rw [if_pos htgt]
      exact ⟨hne, hnd, [], by simp⟩
    · rw [if_neg htgt]
      by_cases hpre : (pre.any fun b => decide (i ∈ bucketItems b)) = true
      · rw [if_pos hpre]
        have hiP : i ∈ itemsJoin pre := by
          rcases List.any_eq_true.mp hpre with ⟨b, hb, hdec⟩
          exact mem_itemsJoin.mpr ⟨b, hb, by simpa using hdec⟩
        refine ⟨?_, ?_, [i], rfl⟩
        · intro b hb
          rcases List.mem_append.mp hb with hb | hb
          · exact removeItemOnce_nonempty
              (fun b hb => hne b (List.mem_append_left _ hb)) b hb
          · exact hne b (List.mem_append_right _ hb)
        · rw [removeItemOnce_join]
          exact nodup_move_left hnd htgt hiP
      · rw [if_neg hpre]
        have hiP : i ∉ itemsJoin pre := by
          intro hmem
          rcases mem_itemsJoin.mp hmem with ⟨b, hb, hbi⟩
          exact hpre (List.any_eq_true.mpr ⟨b, hb, by simpa using hbi⟩)
        refine ⟨?_, ?_, [i], rfl⟩
        · intro b hb
          rcases List.mem_append.mp hb with hb | hb
          · exact hne b (List.mem_append_left _ hb)
          · exact removeItemOnce_nonempty
              (fun b hb => hne b (List.mem_append_right _ hb)) b hb
        · rw [removeItemOnce_join]
          exact nodup_move_right hnd htgt hiP

theorem foldl_addOneName_inv (items : Table Item) :
    ∀ (names : List String) (pre : List Bucket) (tgt : List Nat)
      (post : List Bucket) (hc : Bool),
      (∀ b ∈ pre ++ post, bucketItems b ≠ []) →
      (itemsJoin pre ++ tgt ++ itemsJoin post).Nodup →
      (∀ b ∈ (names.foldl (addOneName items) (pre, tgt, post, hc)).1 ++
          (names.foldl (addOneName items) (pre, tgt, post, hc)).2.2.1,
          bucketItems b ≠ []) ∧
      (itemsJoin (names.foldl (addOneName items) (pre, tgt, post, hc)).1 ++
          (names.foldl (addOneName items) (pre, tgt, post, hc)).2.1 ++
          itemsJoin (names.foldl (addOneName items) (pre, tgt, post, hc)).2.2.1).Nodup ∧
      (∃ s, (names.foldl (addOneName items) (pre, tgt, post, hc)).2.1 = tgt ++ s) := by
  intro names
  induction names with
  | nil => intro pre tgt post hc hne hnd; exact ⟨hne, hnd, [], by simp⟩
  | cons nm rest ih =>
    intro pre tgt post hc hne hnd
    obtain ⟨h1, h2, s1, hs1⟩ := addOneName_inv items nm pre tgt post hc hne hnd
    rw [List.foldl_cons]
    obtain ⟨g1, g2, s2, hs2⟩ := ih (addOneName items (pre, tgt, post, hc) nm).1
      (addOneName items (pre, tgt, post, hc) nm).2.1
      (addOneName items (pre, tgt, post, hc) nm).2.2.1
      (addOneName items (pre, tgt, post, hc) nm).2.2.2 h1 h2
    refine ⟨g1, g2, s1 ++ s2, ?_⟩
    rw [hs2, hs1, List.append_assoc]

theorem splitFirst_eq {α : Type} {p : α → Bool} :
    ∀ {l : List α} {x : List α × α × List α}, splitFirst p l = some x →
      l = x.1 ++ x.2.1 :: x.2.2 ∧ p x.2.1 = true ∧ ∀ b ∈ x.1, p b = false := by
  intro l
  induction l with
  | nil => intro x h; cases h
  | cons a rest ih =>
    intro x h
    rw [splitFirst] at h
    by_cases hp : p a
    · rw [if_pos hp] at h
      have hx := (Option.some.inj h).symm
      subst hx
      exact ⟨rfl, hp, by simp⟩
    · rw [if_neg hp] at h
      rcases Option.map_eq_some'.mp h with ⟨y, hy, hxy⟩
      rcases ih hy with ⟨heq, hpy, hpres⟩
      subst hxy
      refine ⟨by rw [heq]; rfl, hpy, ?_⟩
      intro b hb
      rcases List.mem_cons.mp hb with rfl | hb'
      · simpa using hp
      · exact hpres b hb'

theorem DbInv_dictInsert {db : Database} {pid : Nat} {pool' : Pool}
    (h : DbInv db) (hp : PoolInv (pool'.loot_table.getD [])) :
    DbInv { db with pools := some (dictInsert (db.pools.getD []) pid pool') } := by
  intro kv hkv
  replace hkv : kv ∈ dictInsert (db.pools.getD []) pid pool' := hkv
  rcases mem_dictInsert hkv with hm | he
  · exact h kv hm
  · rw [he]
    exact hp

theorem addpoolitem_core_inv {items : Table Item} {lt : List Bucket} {r : ℚ}
    {ns : List String} (h : PoolInv lt)
    (hsv : (addpoolitem_core items lt r ns).2 = true) :
    PoolInv (addpoolitem_core items lt r ns).1 := by
  unfold addpoolitem_core at hsv ⊢
  cases hsp : splitFirst (fun b => isclose (b.rate.getD 0) r DROP_RATE_TOLERANCE) lt with
  | none =>
    simp only [hsp, Option.isNone_none] at hsv ⊢
    have hinit_ne : ∀ b ∈ lt ++ ([] : List Bucket), bucketItems b ≠ [] := by
      simpa using h.1
    have hinit_nd : (itemsJoin lt ++ ([] : List Nat) ++ itemsJoin []).Nodup := by
      simpa [itemsJoin] using h.2
    obtain ⟨h1, h2, s, hs⟩ := foldl_addOneName_inv items ns lt [] [] true hinit_ne hinit_nd
    have htgt_ne : (ns.foldl (addOneName items) (lt, [], [], true)).2.1 ≠ [] := by
      intro hc
      rw [hc] at hsv
      simp at hsv
    constructor
    · intro b hb
      rcases List.mem_append.mp hb with hb | hb
      · exact h1 b (List.mem_append_left _ hb)
      · rcases List.mem_cons.mp hb with rfl | hb'
        · exact htgt_ne
        · exact h1 b (List.mem_append_right _ hb')
    · rw [itemsJoin_append, itemsJoin_cons]
      simpa [List.append_assoc] using h2
  | some x =>
    simp only [hsp, Option.isNone_some] at hsv ⊢
    obtain ⟨heq, hpx, hpres⟩ := splitFirst_eq hsp
    have hinit_ne : ∀ b ∈ x.1 ++ x.2.2, bucketItems b ≠ [] := by
      intro b hb
      refine h.1 b ?_
      rw [heq]
      rcases List.mem_append.mp hb with hb | hb
      · exact List.mem_append_left _ hb
      · exact List.mem_append_right _ (List.mem_cons_of_mem _ hb)
    have hinit_nd : (itemsJoin x.1 ++ bucketItems x.2.1 ++ itemsJoin x.2.2).Nodup := by
      have h2 := h.2
      rw [heq, itemsJoin_append, itemsJoin_cons] at h2
      simpa [List.append_assoc] using h2
    obtain ⟨h1, h2, s, hs⟩ := foldl_addOneName_inv items ns x.1 (bucketItems x.2.1)
      x.2.2 false hinit_ne hinit_nd
    have htgt_ne : (ns.foldl (addOneName items)
        (x.1, bucketItems x.2.1, x.2.2, false)).2.1 ≠ [] := by
      intro hc
      rw [hc] at hsv
      simp at hsv
    constructor
    · intro b hb
      rcases List.mem_append.mp hb with hb | hb
      · exact h1 b (List.mem_append_left _ hb)
      · rcases List.mem_cons.mp hb with rfl | hb'
        · exact htgt_ne
        · exact h1 b (List.mem_append_right _ hb')
    · rw [itemsJoin_append, itemsJoin_cons]
      simpa [List.append_assoc] using h2

theorem addpoolitem_DbInv (db : Database) (c : String) (r : ℚ) (ns : List String)
    (h : DbInv db) : DbInv (runStep (addpoolitem db c r ns) db) := by
  unfold addpoolitem
  split
  · exact h
  · cases hfind : find_id_by_field_pools (db.pools.getD []) "code" c with
    | none => simp only [hfind]; exact h
    | some pid =>
      simp only [hfind]
      cases hget : dictGet (db.pools.getD []) pid with
      | none => simp only [hget]; exact h
      | some pool =>
        simp only [hget]
        cases hsv : (addpoolitem_core (db.items.getD [])
            (pool.loot_table.getD []) r ns).2 with
        | false => exact h
        | true =>
          refine DbInv_dictInsert h ?_
          have hpool : PoolInv (pool.loot_table.getD []) := h _ (dictGet_mem hget)
          exact addpoolitem_core_inv hpool hsv

theorem removeItemOnce_PoolInv {lt : List Bucket} {i : Nat} (h : PoolInv lt) :
    PoolInv (removeItemOnce lt i) := by
  constructor
  · exact removeItemOnce_nonempty h.1
  · rw [removeItemOnce_join]
    exact h.2.erase i

theorem removeOneName_PoolInv {items : Table Item} {st : List Bucket × Bool}
    {nm : String} (h : PoolInv st.1) : PoolInv (removeOneName items st nm).1 := by
  cases hfind : find_item_id items nm with
  | none => simpa [removeOneName, hfind] using h
  | some i =>
    simp only [removeOneName, hfind]
    by_cases hany : (st.1.any fun b => decide (i ∈ bucketItems b)) = true
    · rw [if_pos hany]
      exact removeItemOnce_PoolInv h
    · rw [if_neg hany]
      exact h

theorem removepoolitem_fold_inv (items : Table Item) :
    ∀ (ns : List String) (st : List Bucket × Bool), PoolInv st.1 →
      PoolInv ((ns.foldl (removeOneName items) st).1) := by
  intro ns
  induction ns with
  | nil => intro st h; exact h
  | cons nm rest ih =>
    intro st h
    rw [List.foldl_cons]
    exact ih (removeOneName items st nm) (removeOneName_PoolInv h)

theorem removepoolitem_DbInv (db : Database) (c : String) (ns : List String)
    (h : DbInv db) : DbInv (runStep (removepoolitem db c ns) db) := by
  unfold removepoolitem
  cases hfind : find_id_by_field_pools (db.pools.getD []) "code" c with
  | none => simp only [hfind]; exact h
  | some pid =>
    simp only [hfind]
    cases hget : dictGet (db.pools.getD []) pid with
    | none => simp only [hget]; exact h
    | some pool =>
      simp only [hget]
      cases hsv : (removepoolitem_core (db.items.getD [])
          (pool.loot_table.getD []) ns).2 with
      | false => exact h
      | true =>
        refine DbInv_dictInsert h ?_
        have hpool : PoolInv (pool.loot_table.getD []) := h _ (dictGet_mem hget)
        exact removepoolitem_fold_inv (db.items.getD []) ns _ hpool

theorem replace_internal_some_eq {old new : Nat} :
    ∀ {lt lt' : List Bucket}, replace_pool_item_internal lt old new = some lt' →
      ∃ pre b post, lt = pre ++ b :: post ∧ old ∈ bucketItems b ∧
        (∀ b' ∈ pre, old ∉ bucketItems b') ∧
        lt' = pre ++ ({ b with
          items := some ((bucketItems b).erase old ++ [new]) }) :: post := by
  intro lt
  induction lt with
  | nil => intro lt' h; cases h
  | cons b rest ih =>
    intro lt' h
    rw [replace_pool_item_internal] at h
    by_cases hmem : old ∈ bucketItems b
    · rw [if_pos hmem] at h
      refine ⟨[], b, rest, rfl, hmem, by simp, ?_⟩
      exact (Option.some.inj h).symm
    · rw [if_neg hmem] at h
      rcases Option.map_eq_some'.mp h with ⟨lt1, hlt1, hcons⟩
      rcases ih hlt1 with ⟨pre, b0, post, heq, hold, hpre, hlt'⟩
      refine ⟨b :: pre, b0, post, by rw [heq]; rfl, hold, ?_, ?_⟩
      · intro b' hb'
        rcases List.mem_cons.mp hb' with rfl | hb''
        · exact hmem
        · exact hpre b' hb''
      · rw [← hcons, hlt']
        rfl

theorem replace_internal_PoolInv {lt lt' : List Bucket} {old new : Nat}
    (h : PoolInv lt) (hsafe : new = old ∨ new ∉ itemsJoin lt)
    (hr : replace_pool_item_internal lt old new = some lt') : PoolInv lt' := by
  obtain ⟨pre, b, post, hdec, hold, hpre, hlt'⟩ := replace_internal_some_eq hr
  subst hdec
  subst hlt'
  have hjoin := h.2
  rw [itemsJoin_append, itemsJoin_cons] at hjoin
  constructor
  · intro b' hb'
    rcases List.mem_append.mp hb' with hb' | hb'
    · exact h.1 b' (List.mem_append_left _ hb')
    · rcases List.mem_cons.mp hb' with rfl | hb''
      · show (bucketItems b).erase old ++ [new] ≠ []
        simp
      · exact h.1 b' (List.mem_append_right _ (List.mem_cons_of_mem _ hb''))
  · rw [itemsJoin_append, itemsJoin_cons]
    show (itemsJoin pre ++ (((bucketItems b).erase old ++ [new]) ++ itemsJoin post)).Nodup
    rw [List.nodup_iff_count_le_one] at hjoin ⊢
    intro a
    have ha := hjoin a
    simp only [List.count_append] at ha ⊢
    have hBc : 0 < List.count old (bucketItems b) := List.count_pos_iff.mpr hold
    rcases hsafe with rfl | hnew
    · by_cases hao : a = new
      · subst hao
        rw [List.count_erase_self]
        have hs : List.count a [a] = 1 := by simp
        rw [hs]
        omega
      · rw [List.count_erase_of_ne hao]
        have hs : List.count a [new] = 0 := by simp [hao]
        rw [hs]
        omega
    · have hnP : List.count new (itemsJoin pre) = 0 := by
        refine List.count_eq_zero.mpr fun hc => hnew ?_
        rw [itemsJoin_append, itemsJoin_cons]
        exact List.mem_append_left _ hc
      have hnB : List.count new (bucketItems b) = 0 := by
        refine List.count_eq_zero.mpr fun hc => hnew ?_
        rw [itemsJoin_append, itemsJoin_cons]
        exact List.mem_append_right _ (List.mem_append_left _ hc)
      have hnQ : List.count new (itemsJoin post) = 0 := by
        refine List.count_eq_zero.mpr fun hc => hnew ?_
        rw [itemsJoin_append, itemsJoin_cons]
        exact List.mem_append_right _ (List.mem_append_right _ hc)
      have hno : new ≠ old := by
        intro hc
        rw [hc] at hnB
        omega
      by_cases han : a = new
      · subst han
        rw [List.count_erase_of_ne hno]
        have hs : List.count a [a] = 1 := by simp
        rw [hs]
        omega
      · by_cases hao : a = old
        · subst hao
          rw [List.count_erase_self]
          have hs : List.count a [new] = 0 :=
            List.count_eq_zero.mpr (by simpa using han)
          rw [hs]
          omega
        · rw [List.count_erase_of_ne hao]
          have hs : List.count a [new] = 0 :=
            List.count_eq_zero.mpr (by simpa using han)
          rw [hs]
          omega

theorem isclose_self (a t : ℚ) : isclose a a t = true := by
  simp only [isclose, decide_eq_true_eq, sub_self, abs_zero]
  exact le_max_right _ _

theorem bucketItems_mk (q : Option ℚ) (l : List Nat) :
    bucketItems { rate := q, items := some l } = l := rfl

theorem runStep_ok_true (d db : Database) : runStep (.ok (d, true)) db = d := rfl

theorem runStep_ok_false (d db : Database) : runStep (.ok (d, false)) db = db := rfl

theorem dictGet_dictInsert_self {α : Type} (t : Table α) (k : Nat) (v : α) :
    dictGet (dictInsert t k v) k = some v := by
  unfold dictInsert
  split
  · next hany =>
    unfold dictGet
    induction t with
    | nil => simp at hany
    | cons kv rest ih =>
      by_cases hk : (kv.1 == k) = true
      · rw [List.map_cons, if_pos hk]
        rw [List.find?_cons_of_pos _ (by simp)]
        rfl
      · have hk' : (kv.1 == k) = false := by simpa using hk
        rw [List.map_cons, if_neg hk, List.find?_cons_of_neg _ (by simp [hk'])]
        refine ih ?_
        rcases List.any_eq_true.mp hany with ⟨kv', hkv', hkk⟩
        rcases List.mem_cons.mp hkv' with rfl | hkv''
        · exact absurd hkk hk
        · exact List.any_eq_true.mpr ⟨kv', hkv'', hkk⟩
  · next hany =>
    refine dictGet_append_right fun kv hkv => ?_
    have hany' : (t.any fun kv => kv.1 == k) = false := Bool.eq_false_iff.mpr hany
    rw [List.any_eq_false] at hany'
    simpa using hany' kv hkv

theorem poolLoot_update (db : Database) (pid : Nat) (p : Pool) :
    poolLoot { db with pools := some (dictInsert (db.pools.getD []) pid p) } pid
      = p.loot_table.getD [] := by
  unfold poolLoot
  have h1 : ({ db with pools := some (dictInsert (db.pools.getD []) pid p) }
      : Database).pools.getD [] = dictInsert (db.pools.getD []) pid p := rfl
  rw [h1, dictGet_dictInsert_self]
  rfl

theorem addpoolitem_core_skip {items : Table Item} {lt : List Bucket} {r : ℚ}
    {nm : String} {x : List Bucket × Bucket × List Bucket} {i : Nat}
    (hsp : splitFirst (fun b => isclose (b.rate.getD 0) r DROP_RATE_TOLERANCE) lt
      = some x)
    (hfi : find_item_id items nm = some i) (hmem : i ∈ bucketItems x.2.1) :
    (addpoolitem_core items lt r [nm]).2 = false := by
  unfold addpoolitem_core
  simp only [hsp, Option.isNone_some, List.foldl_cons, List.foldl_nil, addOneName, hfi]
  rw [if_pos hmem]
  exact Bool.false_and _

theorem addpoolitem_core_migrate {items : Table Item} {lt : List Bucket} {r : ℚ}
    {nm : String} {i : Nat}
    (hpool : PoolInv lt)
    (hfi : find_item_id items nm = some i)
    (hin : i ∈ itemsJoin lt)
    (hdiff : ∀ b ∈ lt, i ∈ bucketItems b →
      isclose (b.rate.getD 0) r DROP_RATE_TOLERANCE = false) :
    (addpoolitem_core items lt r [nm]).2 = true
      ∧ List.count i (itemsJoin (addpoolitem_core items lt r [nm]).1) = 1
      ∧ (∀ b ∈ (addpoolitem_core items lt r [nm]).1, i ∈ bucketItems b →
          isclose (b.rate.getD 0) r DROP_RATE_TOLERANCE = true)
      ∧ (∀ b ∈ (addpoolitem_core items lt r [nm]).1, bucketItems b ≠ []) := by
  unfold addpoolitem_core
  cases hsp : splitFirst (fun b => isclose (b.rate.getD 0) r DROP_RATE_TOLERANCE) lt with
  | none =>
    simp only [hsp, Option.isNone_none, List.foldl_cons, List.foldl_nil, addOneName, hfi]
    rw [if_neg (List.not_mem_nil i)]
    have hany : (lt.any fun b => decide (i ∈ bucketItems b)) = true := by
      rcases mem_itemsJoin.mp hin with ⟨b, hb, hbi⟩
      exact List.any_eq_true.mpr ⟨b, hb, by simpa using hbi⟩
    rw [if_pos hany]
    have hcnt : List.count i (itemsJoin lt) = 1 := List.count_eq_one_of_mem hpool.2 hin
    refine ⟨rfl, ?_, ?_, ?_⟩
    · rw [itemsJoin_append, itemsJoin_cons, removeItemOnce_join]
      simp only [List.count_append, List.count_erase_self, hcnt]
      simp [itemsJoin, bucketItems]
    · intro b hb hbi
      rcases List.mem_append.mp hb with hb | hb
      · exfalso
        have hmem2 : i ∈ itemsJoin (removeItemOnce lt i) := mem_itemsJoin.mpr ⟨b, hb, hbi⟩
        rw [removeItemOnce_join] at hmem2
        exact hpool.2.not_mem_erase hmem2
      · rcases List.mem_cons.mp hb with rfl | hb'
        · show isclose ((some r).getD 0) r DROP_RATE_TOLERANCE = true
          rw [Option.getD_some]
          exact isclose_self r DROP_RATE_TOLERANCE
        · simp at hb'
    · intro b hb
      rcases List.mem_append.mp hb with hb | hb
      · exact removeItemOnce_nonempty hpool.1 b hb
      · rcases List.mem_cons.mp hb with rfl | hb'
        · show ([] ++ [i] : List Nat) ≠ []
          simp
        · simp at hb'
  | some x =>
    obtain ⟨heq, hpx, hpres⟩ := splitFirst_eq hsp
    have hx21mem : x.2.1 ∈ lt := by
      rw [heq]
      exact List.mem_append_right _ (List.mem_cons_self _ _)
    have htgt : i ∉ bucketItems x.2.1 := by
      intro hc
      have hd := hdiff x.2.1 hx21mem hc
      have hpx' : isclose (x.2.1.rate.getD 0) r DROP_RATE_TOLERANCE = true := by
        simpa using hpx
      rw [hpx'] at hd
      exact Bool.noConfusion hd
    have hnd : (itemsJoin x.1 ++ bucketItems x.2.1 ++ itemsJoin x.2.2).Nodup := by
      have h2 := hpool.2
      rw [heq, itemsJoin_append, itemsJoin_cons] at h2
      simpa [List.append_assoc] using h2
    have hcnt_le := List.nodup_iff_count_le_one.mp hnd i
    simp only [List.count_append] at hcnt_le
    have hT0 : List.count i (bucketItems x.2.1) = 0 := List.count_eq_zero.mpr htgt
    have hin2 : i ∈ itemsJoin x.1 ∨ i ∈ itemsJoin x.2.2 := by
      have hin' := hin
      rw [heq, itemsJoin_append, itemsJoin_cons] at hin'
      rcases List.mem_append.mp hin' with h1 | h1
      · exact Or.inl h1
      · rcases List.mem_append.mp h1 with h2 | h2
        · exact absurd h2 htgt
        · exact Or.inr h2
    simp only [hsp, Option.isNone_some, List.foldl_cons, List.foldl_nil, addOneName, hfi]
    rw [if_neg htgt]
    by_cases hany : (x.1.any fun b => decide (i ∈ bucketItems b)) = true
    · rw [if_pos hany]
      have hiP : i ∈ itemsJoin x.1 := by
        rcases List.any_eq_true.mp hany with ⟨b, hb, hdec⟩
        exact mem_itemsJoin.mpr ⟨b, hb, by simpa using hdec⟩
      have hcP : List.count i (itemsJoin x.1) = 1 := by
        have := List.count_pos_iff.mpr hiP
        omega
      have hcQ : List.count i (itemsJoin x.2.2) = 0 := by omega
      refine ⟨?_, ?_, ?_, ?_⟩
      · show (true && !((bucketItems x.2.1 ++ [i]).isEmpty)) = true
        simp
      · rw [itemsJoin_append, itemsJoin_cons, removeItemOnce_join, bucketItems_mk]
        simp only [List.count_append, List.count_erase_self, hcP, hT0, hcQ]
        simp
      · intro b hb hbi
        rcases List.mem_append.mp hb with hb | hb
        · exfalso
          have hmem2 : i ∈ itemsJoin (removeItemOnce x.1 i) :=
            mem_itemsJoin.mpr ⟨b, hb, hbi⟩
          rw [removeItemOnce_join] at hmem2
          have hz : List.count i ((itemsJoin x.1).erase i) = 0 := by
            rw [List.count_erase_self, hcP]
          exact absurd (List.count_pos_iff.mpr hmem2) (by omega)
        · rcases List.mem_cons.mp hb with rfl | hb'
          · simpa using hpx
          · exfalso
            have : 0 < List.count i (itemsJoin x.2.2) :=
              List.count_pos_iff.mpr (mem_itemsJoin.mpr ⟨b, hb', hbi⟩)
            omega
      · intro b hb
        rcases List.mem_append.mp hb with hb | hb
        · refine removeItemOnce_nonempty ?_ b hb
          intro b' hb'
          refine hpool.1 b' ?_
          rw [heq]
          exact List.mem_append_left _ hb'
        · rcases List.mem_cons.mp hb with rfl | hb'
          · rw [bucketItems_mk]
            simp
          · refine hpool.1 b ?_
            rw [heq]
            exact List.mem_append_right _ (List.mem_cons_of_mem _ hb')
    · rw [if_neg hany]
      have hiP : i ∉ itemsJoin x.1 := by
        intro hmem2
        rcases mem_itemsJoin.mp hmem2 with ⟨b, hb, hbi⟩
        exact hany (List.any_eq_true.mpr ⟨b, hb, by simpa using hbi⟩)
      have hcP : List.count i (itemsJoin x.1) = 0 := List.count_eq_zero.mpr hiP
      have hiQ : i ∈ itemsJoin x.2.2 := by
        rcases hin2 with h1 | h1
        · exact absurd h1 hiP
        · exact h1
      have hcQ : List.count i (itemsJoin x.2.2) = 1 := by
        have := List.count_pos_iff.mpr hiQ
        omega
      refine ⟨?_, ?_, ?_, ?_⟩
      · show (true && !((bucketItems x.2.1 ++ [i]).isEmpty)) = true
        simp
      · rw [itemsJoin_append, itemsJoin_cons, removeItemOnce_join, bucketItems_mk]
        simp only [List.count_append, List.count_erase_self, hcP, hT0, hcQ]
        simp
      · intro b hb hbi
        rcases List.mem_append.mp hb with hb | hb
        · exfalso
          have : 0 < List.count i (itemsJoin x.1) :=
            List.count_pos_iff.mpr (mem_itemsJoin.mpr ⟨b, hb, hbi⟩)
          omega
        · rcases List.mem_cons.mp hb with rfl | hb'
          · simpa using hpx
          · exfalso
            have hmem2 : i ∈ itemsJoin (removeItemOnce x.2.2 i) :=
              mem_itemsJoin.mpr ⟨b, hb', hbi⟩
            rw [removeItemOnce_join] at hmem2
            have hz : List.count i ((itemsJoin x.2.2).erase i) = 0 := by
              rw [List.count_erase_self, hcQ]
            exact absurd (List.count_pos_iff.mpr hmem2) (by omega)
      · intro b hb
        rcases List.mem_append.mp hb with hb | hb
        · refine hpool.1 b ?_
          rw [heq]
          exact List.mem_append_left _ hb
        · rcases List.mem_cons.mp hb with rfl | hb'
          · rw [bucketItems_mk]
            simp
          · refine removeItemOnce_nonempty ?_ b hb'
            intro b' hb''
            refine hpool.1 b' ?_
            rw [heq]
            exact List.mem_append_right _ (List.mem_cons_of_mem _ hb'')

/-- Claim C7: re-adding an item to a pool at a rate whose (first
tolerance-matching) bucket already holds it leaves the persisted database
unchanged; adding an item that the pool holds only at non-matching rates
moves it: afterwards the item occurs exactly once in the pool, every
bucket holding it has the target rate (up to the 1e-5 tolerance), and no
empty bucket remains (the drained bucket was dropped). -/
theorem c7_readd_semantics :
    (∀ (db : Database) (c nm : String) (r : ℚ) (pid : Nat) (pool : Pool)
        (x : List Bucket × Bucket × List Bucket) (i : Nat),
      ¬(r < 0 ∨ r > 1) →
      find_id_by_field_pools (db.pools.getD []) "code" c = some pid →
      dictGet (db.pools.getD []) pid = some pool →
      splitFirst (fun b => isclose (b.rate.getD 0) r DROP_RATE_TOLERANCE)
        (pool.loot_table.getD []) = some x →
      find_item_id (db.items.getD []) nm = some i →
      i ∈ bucketItems x.2.1 →
      runStep (addpoolitem db c r [nm]) db = db)
    ∧ (∀ (db : Database) (c nm : String) (r : ℚ) (pid : Nat) (pool : Pool) (i : Nat),
      DbInv db →
      ¬(r < 0 ∨ r > 1) →
      find_id_by_field_pools (db.pools.getD []) "code" c = some pid →
      dictGet (db.pools.getD []) pid = some pool →
      find_item_id (db.items.getD []) nm = some i →
      i ∈ itemsJoin (pool.loot_table.getD []) →
      (∀ b ∈ pool.loot_table.getD [], i ∈ bucketItems b →
        isclose (b.rate.getD 0) r DROP_RATE_TOLERANCE = false) →
      List.count i (itemsJoin (poolLoot (runStep (addpoolitem db c r [nm]) db) pid)) = 1
        ∧ (∀ b ∈ poolLoot (runStep (addpoolitem db c r [nm]) db) pid,
            i ∈ bucketItems b → isclose (b.rate.getD 0) r DROP_RATE_TOLERANCE = true)
        ∧ (∀ b ∈ poolLoot (runStep (addpoolitem db c r [nm]) db) pid,
            bucketItems b ≠ [])) := by
  constructor
  · intro db c nm r pid pool x i hr0 hfind hget hsp hfi hmem
    unfold addpoolitem
    rw [if_neg hr0]
    simp only [hfind, hget]
    rw [addpoolitem_core_skip hsp hfi hmem, runStep_ok_false]
  · intro db c nm r pid pool i hinv hr0 hfind hget hfi hin hdiff
    have hpool : PoolInv (pool.loot_table.getD []) := hinv _ (dictGet_mem hget)
    obtain ⟨hsv, hcnt, hrt, hne⟩ := addpoolitem_core_migrate hpool hfi hin hdiff
    unfold addpoolitem
    rw [if_neg hr0]
    simp only [hfind, hget]
    rw [hsv, runStep_ok_true, poolLoot_update]
    exact ⟨hcnt, hrt, hne⟩

/-- Claim C7 (witness): re-adding item Foo at its current rate 1/10 is a
no-op; adding it at rate 1/5 leaves it exactly once in the pool. -/
theorem c7_readd_witness :
    runStep (addpoolitem db_c7 "p" (mkRat 1 10) ["Foo"]) db_c7 = db_c7
      ∧ List.count 1 (itemsJoin (poolLoot
          (runStep (addpoolitem db_c7 "p" (mkRat 1 5) ["Foo"]) db_c7) 1)) = 1 :=
  ⟨c7_readd_semantics.1 db_c7 "p" "Foo" (mkRat 1 10) 1 pool_c7
      ([], { rate := some (mkRat 1 10), items := some [1] }, []) 1
      (by decide) (by decide) (by decide) (by decide) (by decide) (by decide),
   (c7_readd_semantics.2 db_c7 "p" "Foo" (mkRat 1 5) 1 pool_c7 1
      (by decide) (by decide) (by decide) (by decide) (by decide) (by decide)
      (by decide)).1⟩

theorem find_id_append_src {pools : Table Pool} {s : String} {pid : Nat}
    (e : Nat × Pool) (h : find_id_by_field_pools pools "code" s = some pid) :
    find_id_by_field_pools (pools ++ [e]) "code" s = some pid := by
  unfold find_id_by_field_pools at h ⊢
  rw [List.find?_append]
  rcases Option.map_eq_some'.mp h with ⟨kv, hf, hp⟩
  rw [hf]
  simpa using hp

theorem find_id_append_new {pools : Table Pool} {nc : String} {nid : Nat} {p : Pool}
    (hfresh : ∀ kv ∈ pools, kv.2.code ≠ nc) (hcode : p.code = nc) :
    find_id_by_field_pools (pools ++ [(nid, p)]) "code" nc = some nid := by
  unfold find_id_by_field_pools
  rw [List.find?_append]
  have h1 : (pools.find? fun kv => poolMatchesField kv.2 "code" nc) = none := by
    rw [List.find?_eq_none]
    intro kv hkv
    simp only [poolMatchesField]
    simpa using hfresh kv hkv
  rw [h1]
  have h2 : (([(nid, p)] : Table Pool).find? fun kv =>
      poolMatchesField kv.2 "code" nc) = some (nid, p) := by
    refine List.find?_cons_of_pos _ ?_
    simp only [poolMatchesField]
    simpa using hcode
  rw [Option.none_or, h2]
  rfl

theorem mutop_apply_shape (op : MutOp) (db : Database) :
    MutOp.apply db op = db ∨
    ∃ pid pool lt',
      find_id_by_field_pools (db.pools.getD []) "code" op.targetCode = some pid
      ∧ dictGet (db.pools.getD []) pid = some pool
      ∧ MutOp.apply db op = { db with pools := some (dictInsert (db.pools.getD []) pid
          { pool with loot_table := some lt' }) } := by
  cases op with
  | addItems c r ns =>
    simp only [MutOp.apply, MutOp.targetCode]
    unfold addpoolitem
    split
    · exact Or.inl rfl
    · cases hfind : find_id_by_field_pools (db.pools.getD []) "code" c with
      | none => simp only [hfind]; exact Or.inl rfl
      | some pid =>
        simp only [hfind]
        cases hget : dictGet (db.pools.getD []) pid with
        | none => simp only [hget]; exact Or.inl rfl
        | some pool =>
          simp only [hget]
          cases hsv : (addpoolitem_core (db.items.getD [])
              (pool.loot_table.getD []) r ns).2 with
          | false => exact Or.inl rfl
          | true =>
            refine Or.inr ⟨pid, pool, _, ?_, ?_, rfl⟩
            · simp [hfind]
            · simp [hget]
  | removeItems c ns =>
    simp only [MutOp.apply, MutOp.targetCode]
    unfold removepoolitem
    cases hfind : find_id_by_field_pools (db.pools.getD []) "code" c with
    | none => simp only [hfind]; exact Or.inl rfl
    | some pid =>
      simp only [hfind]
      cases hget : dictGet (db.pools.getD []) pid with
      | none => simp only [hget]; exact Or.inl rfl
      | some pool =>
        simp only [hget]
        cases hsv : (removepoolitem_core (db.items.getD [])
            (pool.loot_table.getD []) ns).2 with
        | false => exact Or.inl rfl
        | true =>
          refine Or.inr ⟨pid, pool, _, ?_, ?_, rfl⟩
          · simp [hfind]
          · simp [hget]
  | replaceItems c f ns =>
    simp only [MutOp.apply, MutOp.targetCode]
    unfold replacepoolitem
    split
    · exact Or.inl rfl
    · cases hfind : find_id_by_field_pools (db.pools.getD []) "code" c with
      | none => simp only [hfind]; exact Or.inl rfl
      | some pid =>
        simp only [hfind]
        cases hget : dictGet (db.pools.getD []) pid with
        | none => simp only [hget]; exact Or.inl rfl
        | some pool =>
          simp only [hget]
          cases hsv : (replacepoolitem_core (db.items.getD [])
              (pool.loot_table.getD []) f (toPairs ns)).2 with
          | false => exact Or.inl rfl
          | true =>
            refine Or.inr ⟨pid, pool, _, ?_, ?_, rfl⟩
            · simp [hfind]
            · simp [hget]

/-- Claim C8: `clonepool` fails when no pool has the source code; otherwise
it stores, under the allocator-provided fresh id, a copy of the source
record whose loot table equals the source's and whose name and code are
the given ones, and saves.  Afterwards, provided the new code is not
already in use, any loot-table mutation addressed to the new code leaves
the source pool record untouched, and any mutation addressed to the source
code leaves the clone record untouched. -/
theorem c8_clonepool :
    (∀ (db : Database) (s nc nn : String),
      find_id_by_field_pools (db.pools.getD []) "code" s = none →
      clonepool db s nc nn =
        .error "the pool with the specified identifier does not exist")
    ∧ (∀ (db : Database) (s nc nn : String) (pid : Nat) (pool : Pool),
      find_id_by_field_pools (db.pools.getD []) "code" s = some pid →
      dictGet (db.pools.getD []) pid = some pool →
      clonepool db s nc nn = .ok ({ db with pools := some ((db.pools.getD []) ++
          [(get_next_id (some (db.pools.getD [])),
            { pool with name := nn, code := nc })]) }, true)
        ∧ (∀ kv ∈ db.pools.getD [], kv.1 ≠ get_next_id (some (db.pools.getD [])))
        ∧ ({ pool with name := nn, code := nc } : Pool).loot_table = pool.loot_table)
    ∧ (∀ (db : Database) (s nc nn : String) (pid : Nat) (pool : Pool) (op : MutOp),
      find_id_by_field_pools (db.pools.getD []) "code" s = some pid →
      dictGet (db.pools.getD []) pid = some pool →
      (∀ kv ∈ db.pools.getD [], kv.2.code ≠ nc) →
      (op.targetCode = nc →
        dictGet ((MutOp.apply (runStep (clonepool db s nc nn) db) op).pools.getD [])
          pid = some pool)
      ∧ (op.targetCode = s →
        dictGet ((MutOp.apply (runStep (clonepool db s nc nn) db) op).pools.getD [])
          (get_next_id (some (db.pools.getD []))) =
            some { pool with name := nn, code := nc })) := by
  refine ⟨?_, ?_, ?_⟩
  · intro db s nc nn hfind
    unfold clonepool
    simp only [hfind]
  · intro db s nc nn pid pool hfind hget
    have hfreshk : ∀ kv ∈ db.pools.getD [],
        kv.1 ≠ get_next_id (some (db.pools.getD [])) :=
      fun kv hkv => Nat.ne_of_lt (mem_key_lt_next hkv)
    refine ⟨?_, hfreshk, rfl⟩
    unfold clonepool
    simp only [hfind, hget]
    rw [dictInsert_fresh hfreshk]
  · intro db s nc nn pid pool op hfind hget hfreshcode
    have hclone : runStep (clonepool db s nc nn) db =
        { db with pools := some (dictInsert (db.pools.getD [])
          (get_next_id (some (db.pools.getD [])))
          { pool with name := nn, code := nc }) } := by
      unfold clonepool
      simp only [hfind, hget]
      rw [runStep_ok_true]
    have hfreshk : ∀ kv ∈ db.pools.getD [],
        kv.1 ≠ get_next_id (some (db.pools.getD [])) :=
      fun kv hkv => Nat.ne_of_lt (mem_key_lt_next hkv)
    have happend : dictInsert (db.pools.getD [])
        (get_next_id (some (db.pools.getD []))) { pool with name := nn, code := nc }
        = (db.pools.getD []) ++ [(get_next_id (some (db.pools.getD [])),
            { pool with name := nn, code := nc })] := dictInsert_fresh hfreshk
    have hpidne : pid ≠ get_next_id (some (db.pools.getD [])) :=
      Nat.ne_of_lt (mem_key_lt_next (dictGet_mem hget))
    have hdbp : (runStep (clonepool db s nc nn) db).pools.getD []
        = dictInsert (db.pools.getD []) (get_next_id (some (db.pools.getD [])))
          { pool with name := nn, code := nc } := by
      rw [hclone]
      rfl
    constructor
    · intro htc
      rcases mutop_apply_shape op (runStep (clonepool db s nc nn) db) with
        happ | ⟨pid2, pool2, lt', hfind2, _, happ⟩
      · rw [happ, hdbp, dictGet_dictInsert_ne (Ne.symm hpidne)]
        exact hget
      · rw [hdbp, happend, htc] at hfind2
        have hres := @find_id_append_new (db.pools.getD []) nc
          (get_next_id (some (db.pools.getD [])))
          ({ pool with name := nn, code := nc }) hfreshcode rfl
        rw [hfind2] at hres
        have hpid2 : pid2 = get_next_id (some (db.pools.getD [])) :=
          Option.some.inj hres
        have hstep : dictGet ((MutOp.apply (runStep (clonepool db s nc nn) db)
            op).pools.getD []) pid
            = dictGet (dictInsert ((runStep (clonepool db s nc nn) db).pools.getD [])
              pid2 { pool2 with loot_table := some lt' }) pid := by
          rw [happ]
          rfl
        rw [hstep, hpid2, dictGet_dictInsert_ne (Ne.symm hpidne), hdbp,
          dictGet_dictInsert_ne (Ne.symm hpidne)]
        exact hget
    · intro htc
      rcases mutop_apply_shape op (runStep (clonepool db s nc nn) db) with
        happ | ⟨pid2, pool2, lt', hfind2, _, happ⟩
      · rw [happ, hdbp, dictGet_dictInsert_self]
      · rw [hdbp, happend, htc] at hfind2
        have hres := find_id_append_src (get_next_id (some (db.pools.getD [])),
          { pool with name := nn, code := nc }) hfind
        rw [hfind2] at hres
        have hpid2 : pid2 = pid := Option.some.inj hres
        have hstep : dictGet ((MutOp.apply (runStep (clonepool db s nc nn) db)
            op).pools.getD []) (get_next_id (some (db.pools.getD [])))
            = dictGet (dictInsert ((runStep (clonepool db s nc nn) db).pools.getD [])
              pid2 { pool2 with loot_table := some lt' })
              (get_next_id (some (db.pools.getD []))) := by
          rw [happ]
          rfl
        rw [hstep, hpid2, dictGet_dictInsert_ne hpidne, hdbp, dictGet_dictInsert_self]

/-- Claim C8 (witness): cloning pool `a` to code `b` produces the expected
record, and an `addpoolitem` addressed to the clone leaves the source pool
record unchanged. -/
theorem c8_clonepool_witness :
    clonepool db_c8 "a" "b" "Clone" = .ok ({ db_c8 with
        pools := some ((db_c8.pools.getD []) ++
          [(get_next_id (some (db_c8.pools.getD [])),
            { pool_c8 with name := "Clone", code := "b" })]) }, true)
      ∧ dictGet ((MutOp.apply (runStep (clonepool db_c8 "a" "b" "Clone") db_c8)
          (.addItems "b" (mkRat 1 2) ["Item A"])).pools.getD []) 1 = some pool_c8 :=
  ⟨(c8_clonepool.2.1 db_c8 "a" "b" "Clone" 1 pool_c8 (by decide) (by decide)).1,
   (c8_clonepool.2.2 db_c8 "a" "b" "Clone" 1 pool_c8
      (.addItems "b" (mkRat 1 2) ["Item A"]) (by decide) (by decide)
      (by decide)).1 (by decide)⟩

/-- Claim C2 (counterexample): starting from a database satisfying the
pool invariants, a single `replacepoolitem` call whose new item is already
in the pool duplicates it (the bucket [1, 2] becomes [1, 1]), so the
invariant is not preserved by every operation sequence. -/
theorem c2_counterexample :
    DbInv db_c2
      ∧ ¬ DbInv (applySeq db_c2 [.replaceItems "p" false ["Item B", "Item A"]]) := by
  constructor
  · decide
  · decide

/-- Claim C2 (amended): any sequence of `addpoolitem` and `removepoolitem`
invocations preserves the pool invariants (each item id in at most one
bucket and at most once there, no bucket with an empty item list);
`replacepoolitem`, which appends the new id without any duplicate check,
preserves them only under the proviso that each substitution's new item id
is the old one or is absent from the pool. -/
theorem c2_amended :
    (∀ (db : Database) (ops : List MutOp), (∀ op ∈ ops, op.isReplace = false) →
      DbInv db → DbInv (applySeq db ops))
    ∧ (∀ (db : Database) (c o n : String), DbInv db →
        replaceSafeB db c o n = true →
        DbInv (MutOp.apply db (.replaceItems c false [o, n]))) := by
  constructor
  · intro db ops
    induction ops generalizing db with
    | nil => intro _ h; exact h
    | cons op rest ih =>
      intro hall h
      have hstep : DbInv (MutOp.apply db op) := by
        cases op with
        | addItems c r ns => exact addpoolitem_DbInv db c r ns h
        | removeItems c ns => exact removepoolitem_DbInv db c ns h
        | replaceItems c f ns =>
          have hmem := hall _ (List.mem_cons_self _ _)
          simp [MutOp.isReplace] at hmem
      exact ih (MutOp.apply db op)
        (fun op' h' => hall op' (List.mem_cons_of_mem _ h')) hstep
  · intro db c o n h hsafe
    show DbInv (runStep (replacepoolitem db c false [o, n]) db)
    unfold replacepoolitem
    rw [if_neg (by simp)]
    cases hfind : find_id_by_field_pools (db.pools.getD []) "code" c with
    | none => simp only [hfind]; exact h
    | some pid =>
      simp only [hfind]
      cases hget : dictGet (db.pools.getD []) pid with
      | none => simp only [hget]; exact h
      | some pool =>
        simp only [hget]
        have hcore : replacepoolitem_core (db.items.getD []) (pool.loot_table.getD [])
            false (toPairs [o, n]) = replaceOnePair (db.items.getD []) false
              ((pool.loot_table.getD []), false) (o, n) := rfl
        rw [hcore]
        cases hrp : replace_pool_item (db.items.getD []) (pool.loot_table.getD []) o n with
        | none =>
          simp only [replaceOnePair, hrp]
          exact h
        | some lt1 =>
          simp only [replaceOnePair, hrp]
          rw [if_neg (by simp)]
          refine DbInv_dictInsert h ?_
          unfold replace_pool_item at hrp
          cases hfo : find_item_id (db.items.getD []) o with
          | none => rw [hfo] at hrp; cases hrp
          | some oldId =>
            rw [hfo] at hrp
            cases hfn : find_item_id (db.items.getD []) n with
            | none => rw [hfn] at hrp; simp at hrp
            | some newId =>
              rw [hfn] at hrp
              replace hrp : replace_pool_item_internal (pool.loot_table.getD [])
                  oldId newId = some lt1 := hrp
              have hpool : PoolInv (pool.loot_table.getD []) := h _ (dictGet_mem hget)
              refine replace_internal_PoolInv hpool ?_ hrp
              unfold replaceSafeB at hsafe
              simp only [hfo, hfn, hfind, hget] at hsafe
              by_cases heq : newId = oldId
              · exact Or.inl heq
              · right
                intro hmem
                have hb : (newId == oldId) = false := by simpa using heq
                rw [hb] at hsafe
                simp only [Bool.false_or, Bool.not_eq_true'] at hsafe
                have hmem' : (itemsJoin (pool.loot_table.getD [])).contains newId = true := by
                  exact List.elem_eq_true_of_mem hmem
                rw [hmem'] at hsafe
                exact Bool.noConfusion hsafe

/-- Claim C2 (witness for the amended theorem). -/
theorem c2_amended_witness :
    DbInv (applySeq db_c2 [MutOp.addItems "p" (mkRat 1 5) ["Item B"],
        MutOp.removeItems "p" ["Item A"]])
      ∧ DbInv (MutOp.apply db_c2 (.replaceItems "p" false ["Item B", "Item B"])) :=
  ⟨c2_amended.1 db_c2 [MutOp.addItems "p" (mkRat 1 5) ["Item B"],
      MutOp.removeItems "p" ["Item A"]] (by decide) (by decide),
   c2_amended.2 db_c2 "p" "Item B" "Item B" (by decide) (by decide)⟩

/- ------------------------------------------------------------------ -/
/- Deletion (claim C9).                                                -/
/- ------------------------------------------------------------------ -/

theorem popFirst_sublist {α : Type} (p : Nat × α → Bool) :
    ∀ t : Table α, (popFirst p t).Sublist t := by
  intro t
  induction t with
  | nil => exact List.Sublist.refl []
  | cons kv rest ih =>
    rw [popFirst]
    by_cases hp : p kv = true
    · rw [if_pos hp]
      exact List.sublist_cons_self kv rest
    · rw [if_neg hp]
      exact List.Sublist.cons₂ kv ih

theorem popFirst_length {α : Type} {p : Nat × α → Bool} :
    ∀ {t : Table α}, (t.find? p).isSome → (popFirst p t).length + 1 = t.length := by
  intro t
  induction t with
  | nil => intro h; simp at h
  | cons kv rest ih =>
    intro h
    rw [popFirst]
    by_cases hp : p kv = true
    · rw [if_pos hp]
      rfl
    · rw [if_neg hp]
      rw [List.find?_cons_of_neg _ hp] at h
      rw [List.length_cons, List.length_cons, ih h]

theorem foldl_pop_sublist {α : Type} :
    ∀ (ids : List Nat) (t : Table α),
      (ids.foldl (fun tt i => popFirst (fun kv => kv.1 == i) tt) t).Sublist t := by
  intro ids
  induction ids with
  | nil => intro t; exact List.Sublist.refl t
  | cons i rest ih =>
    intro t
    rw [List.foldl_cons]
    exact (ih (popFirst (fun kv => kv.1 == i) t)).trans (popFirst_sublist _ t)

theorem foldl_pop_length_lt {st : Table Item} {f nm : String}
    (hne : ¬ ((st.filter fun kv => itemMatchesField kv.2 f nm).map
      fun kv => kv.1).isEmpty = true) :
    (((st.filter fun kv => itemMatchesField kv.2 f nm).map fun kv => kv.1).foldl
      (fun tt i => popFirst (fun kv => kv.1 == i) tt) st).length < st.length := by
  obtain ⟨i, irest, hids_eq⟩ : ∃ i irest, ((st.filter fun kv =>
      itemMatchesField kv.2 f nm).map fun kv => kv.1) = i :: irest := by
    cases hl : ((st.filter fun kv => itemMatchesField kv.2 f nm).map
        fun kv => kv.1) with
    | nil =>
      rw [hl] at hne
      exact absurd rfl hne
    | cons a as => exact ⟨a, as, rfl⟩
  rw [hids_eq, List.foldl_cons]
  have hi : i ∈ ((st.filter fun kv => itemMatchesField kv.2 f nm).map
      fun kv => kv.1) := by
    rw [hids_eq]
    exact List.mem_cons_self _ _
  rcases List.mem_map.mp hi with ⟨kv0, hkv0, hkey⟩
  have hkv0t : kv0 ∈ st := List.mem_of_mem_filter hkv0
  have hfound : (st.find? fun kv => kv.1 == i).isSome := by
    rw [List.find?_isSome]
    exact ⟨kv0, hkv0t, by simp [hkey]⟩
  have hlen1 := popFirst_length hfound
  have hlen2 := (foldl_pop_sublist irest
    (popFirst (fun kv => kv.1 == i) st)).length_le
  omega

theorem deleteOneName_shape (field : Option String) (st : Table Item × Bool)
    (nm : String) :
    deleteOneName field st nm = st ∨
    ((deleteOneName field st nm).2 = true ∧
      (deleteOneName field st nm).1.length < st.1.length ∧
      (deleteOneName field st nm).1.Sublist st.1) := by
  cases field with
  | none =>
    by_cases hfound : (st.1.find? fun kv => toString kv.1 == nm).isSome = true
    · have heq : deleteOneName none st nm
          = (popFirst (fun kv => toString kv.1 == nm) st.1, true) := by
        simp only [deleteOneName]
        rw [if_pos hfound]
      rw [heq]
      right
      have hlen := popFirst_length hfound
      refine ⟨rfl, ?_, popFirst_sublist _ _⟩
      show (popFirst (fun kv => toString kv.1 == nm) st.1).length < st.1.length
      omega
    · left
      simp only [deleteOneName]
      rw [if_neg hfound]
  | some f =>
    by_cases hcond : ((f == "")
        && ((st.1.find? fun kv => toString kv.1 == nm).isSome)) = true
    · have heq : deleteOneName (some f) st nm
          = (popFirst (fun kv => toString kv.1 == nm) st.1, true) := by
        simp only [deleteOneName]
        rw [if_pos hcond]
      rw [heq]
      right
      have h2 := ((Bool.and_eq_true _ _) ▸ hcond).2
      have hlen := popFirst_length h2
      refine ⟨rfl, ?_, popFirst_sublist _ _⟩
      show (popFirst (fun kv => toString kv.1 == nm) st.1).length < st.1.length
      omega
    · by_cases hemp : ((st.1.filter fun kv => itemMatchesField kv.2 f nm).map
          fun kv => kv.1).isEmpty = true
      · left
        simp only [deleteOneName]
        rw [if_neg hcond, if_pos hemp]
      · have heq : deleteOneName (some f) st nm = (((st.1.filter fun kv =>
            itemMatchesField kv.2 f nm).map fun kv => kv.1).foldl
            (fun tt i => popFirst (fun kv => kv.1 == i) tt) st.1, true) := by
          simp only [deleteOneName]
          rw [if_neg hcond, if_neg hemp]
        rw [heq]
        right
        exact ⟨rfl, foldl_pop_length_lt hemp, foldl_pop_sublist _ _⟩

theorem deleteOneName_flag (field : Option String) (st : Table Item × Bool)
    (nm : String) (h : st.2 = true) : (deleteOneName field st nm).2 = true := by
  rcases deleteOneName_shape field st nm with heq | hch
  · rw [heq]; exact h
  · exact hch.1

theorem foldl_deleteOne_flag (field : Option String) :
    ∀ (ns : List String) (st : Table Item × Bool), st.2 = true →
      (ns.foldl (deleteOneName field) st).2 = true := by
  intro ns
  induction ns with
  | nil => intro st h; exact h
  | cons nm rest ih =>
    intro st h
    rw [List.foldl_cons]
    exact ih _ (deleteOneName_flag field st nm h)

theorem foldl_deleteOne_sublist (field : Option String) :
    ∀ (ns : List String) (st : Table Item × Bool),
      (ns.foldl (deleteOneName field) st).1.Sublist st.1 := by
  intro ns
  induction ns with
  | nil => intro st; exact List.Sublist.refl _
  | cons nm rest ih =>
    intro st
    rw [List.foldl_cons]
    rcases deleteOneName_shape field st nm with heq | hch
    · rw [heq]; exact ih st
    · exact (ih _).trans hch.2.2

theorem foldl_deleteOne_shape (field : Option String) :
    ∀ (ns : List String) (t : Table Item),
      ns.foldl (deleteOneName field) (t, false) = (t, false) ∨
      ((ns.foldl (deleteOneName field) (t, false)).2 = true ∧
        (ns.foldl (deleteOneName field) (t, false)).1.length < t.length) := by
  intro ns
  induction ns with
  | nil => intro t; exact Or.inl rfl
  | cons nm rest ih =>
    intro t
    rw [List.foldl_cons]
    rcases deleteOneName_shape field (t, false) nm with heq | hch
    · rw [heq]; exact ih t
    · right
      refine ⟨foldl_deleteOne_flag field rest _ hch.1, ?_⟩
      have h1 := (foldl_deleteOne_sublist field rest
        (deleteOneName field (t, false) nm)).length_le
      have h2 : (deleteOneName field (t, false) nm).1.length < t.length := hch.2.1
      omega

theorem deleteitem_saved_iff (db : Database) (field : Option String)
    (ns : List String) :
    (deleteitem db field ns).2 = true ↔
      (deleteitem db field ns).1.items.getD [] ≠ db.items.getD [] := by
  have hshape := foldl_deleteOne_shape field ns (db.items.getD [])
  constructor
  · intro hs hc
    rcases hshape with heq | hch
    · have hfl : (deleteitem db field ns).2 = false := by
        show (ns.foldl (deleteOneName field) (db.items.getD [], false)).2 = false
        rw [heq]
      rw [hfl] at hs
      exact Bool.noConfusion hs
    · have ht : (ns.foldl (deleteOneName field) (db.items.getD [], false)).1
          = db.items.getD [] := hc
      rw [ht] at hch
      exact absurd hch.2 (lt_irrefl _)
  · intro hne
    rcases hshape with heq | hch
    · exfalso
      refine hne ?_
      show (ns.foldl (deleteOneName field) (db.items.getD [], false)).1
        = db.items.getD []
      rw [heq]
    · exact hch.1

theorem pop_filter_str (nm : String) (q : Nat × Item → Bool) :
    ∀ t : Table Item, ((t.map fun kv => toString kv.1).Nodup) →
      (popFirst (fun kv => toString kv.1 == nm) t).filter q
        = t.filter fun kv => (!(toString kv.1 == nm)) && q kv := by
  intro t
  induction t with
  | nil => intro hS; rfl
  | cons kv rest ih =>
    intro hS
    rw [List.map_cons, List.nodup_cons] at hS
    rw [popFirst]
    by_cases hp : (toString kv.1 == nm) = true
    · rw [if_pos hp]
      rw [List.filter_cons]
      rw [if_neg (by rw [hp]; simp)]
      refine (List.filter_congr ?_).symm
      intro x hx
      have hne : toString x.1 ≠ nm := by
        intro hc
        refine hS.1 ?_
        rw [eq_of_beq hp, ← hc]
        exact List.mem_map.mpr ⟨x, hx, rfl⟩
      have hb : (toString x.1 == nm) = false := by simpa using hne
      simp [hb]
    · rw [if_neg hp]
      rw [List.filter_cons, List.filter_cons]
      have hb : (toString kv.1 == nm) = false := by simpa using hp
      rw [hb]
      simp only [Bool.not_false, Bool.true_and]
      rw [ih hS.2]

theorem deleteitem_direct_fold :
    ∀ (ns : List String) (t : Table Item) (fl : Bool),
      ((t.map fun kv => toString kv.1).Nodup) →
      (ns.foldl (deleteOneName none) (t, fl)).1
        = t.filter fun kv => !(ns.contains (toString kv.1)) := by
  intro ns
  induction ns with
  | nil =>
    intro t fl hS
    show t = t.filter fun kv => !(([] : List String).contains (toString kv.1))
    refine (List.filter_eq_self.mpr ?_).symm
    intro x hx
    rfl
  | cons nm rest ih =>
    intro t fl hS
    rw [List.foldl_cons]
    by_cases hfound : (t.find? fun kv => toString kv.1 == nm).isSome = true
    · have hstep : deleteOneName none (t, fl) nm
          = (popFirst (fun kv => toString kv.1 == nm) t, true) := by
        simp only [deleteOneName]
        rw [if_pos hfound]
      rw [hstep]
      have hS2 : (((popFirst (fun kv => toString kv.1 == nm) t).map
          fun kv => toString kv.1).Nodup) :=
        List.Nodup.sublist (List.Sublist.map _
          (popFirst_sublist (fun kv => toString kv.1 == nm) t)) hS
      rw [ih (popFirst (fun kv => toString kv.1 == nm) t) true hS2]
      rw [pop_filter_str nm (fun kv => !(rest.contains (toString kv.1))) t hS]
      refine List.filter_congr ?_
      intro x hx
      simp only [List.contains_cons, Bool.not_or]
    · have hstep : deleteOneName none (t, fl) nm = (t, fl) := by
        simp only [deleteOneName]
        rw [if_neg hfound]
      rw [hstep, ih t fl hS]
      refine List.filter_congr ?_
      intro x hx
      have hb : (toString x.1 == nm) = false := by
        cases hfo : t.find? fun kv => toString kv.1 == nm with
        | some y => rw [hfo] at hfound; simp at hfound
        | none =>
          have hnx := List.find?_eq_none.mp hfo x hx
          simpa using hnx
      simp only [List.contains_cons, hb, Bool.false_or]

theorem foldl_pop_cons (kv : Nat × Item) :
    ∀ (ids : List Nat) (t : Table Item), (∀ i ∈ ids, (kv.1 == i) = false) →
      ids.foldl (fun tt i => popFirst (fun x => x.1 == i) tt) (kv :: t)
        = kv :: ids.foldl (fun tt i => popFirst (fun x => x.1 == i) tt) t := by
  intro ids
  induction ids with
  | nil => intro t hni; rfl
  | cons i irest ih =>
    intro t hni
    rw [List.foldl_cons, List.foldl_cons]
    have h1 : popFirst (fun x => x.1 == i) (kv :: t)
        = kv :: popFirst (fun x => x.1 == i) t := by
      rw [popFirst, if_neg (by simp [hni i (List.mem_cons_self _ _)])]
    rw [h1]
    exact ih (popFirst (fun x => x.1 == i) t)
      fun j hj => hni j (List.mem_cons_of_mem _ hj)

theorem pops_eq_filter (f nm : String) :
    ∀ t : Table Item, ((t.map fun kv => kv.1).Nodup) →
      ((t.filter fun kv => itemMatchesField kv.2 f nm).map fun kv => kv.1).foldl
        (fun tt i => popFirst (fun x => x.1 == i) tt) t
        = t.filter fun kv => !(itemMatchesField kv.2 f nm) := by
  intro t
  induction t with
  | nil => intro hK; rfl
  | cons kv rest ih =>
    intro hK
    rw [List.map_cons, List.nodup_cons] at hK
    by_cases hm : itemMatchesField kv.2 f nm = true
    · have hfle : (kv :: rest).filter (fun kv => itemMatchesField kv.2 f nm)
          = kv :: rest.filter (fun kv => itemMatchesField kv.2 f nm) := by
        simp [List.filter_cons, hm]
      have hfre : (kv :: rest).filter (fun kv => !(itemMatchesField kv.2 f nm))
          = rest.filter (fun kv => !(itemMatchesField kv.2 f nm)) := by
        simp [List.filter_cons, hm]
      rw [hfle, List.map_cons, List.foldl_cons]
      have hpop : popFirst (fun x => x.1 == kv.1) (kv :: rest) = rest := by
        rw [popFirst, if_pos (by simp)]
      rw [hpop, ih hK.2, hfre]
    · have hfle : (kv :: rest).filter (fun kv => itemMatchesField kv.2 f nm)
          = rest.filter (fun kv => itemMatchesField kv.2 f nm) := by
        simp [List.filter_cons, hm]
      have hfre : (kv :: rest).filter (fun kv => !(itemMatchesField kv.2 f nm))
          = kv :: rest.filter (fun kv => !(itemMatchesField kv.2 f nm)) := by
        simp [List.filter_cons, hm]
      rw [hfle]
      have hni : ∀ i ∈ (rest.filter fun kv => itemMatchesField kv.2 f nm).map
          (fun kv => kv.1), (kv.1 == i) = false := by
        intro i hi
        rcases List.mem_map.mp hi with ⟨x, hx, hkey⟩
        have hkey2 : x.1 = i := hkey
        have hxr : x ∈ rest := List.mem_of_mem_filter hx
        have hne : kv.1 ≠ i := by
          intro hc
          refine hK.1 ?_
          exact List.mem_map.mpr ⟨x, hxr, by rw [hkey2, ← hc]⟩
        simpa using hne
      rw [foldl_pop_cons kv _ rest hni]
      rw [ih hK.2, hfre]

theorem deleteitem_field_fold (f : String) (hf : (f == "") = false) :
    ∀ (ns : List String) (t : Table Item) (fl : Bool),
      ((t.map fun kv => kv.1).Nodup) →
      (ns.foldl (deleteOneName (some f)) (t, fl)).1
        = t.filter fun kv => !(ns.any fun nm => itemMatchesField kv.2 f nm) := by
  intro ns
  induction ns with
  | nil =>
    intro t fl hK
    show t = t.filter fun kv => !(([] : List String).any fun nm =>
      itemMatchesField kv.2 f nm)
    refine (List.filter_eq_self.mpr ?_).symm
    intro x hx
    rfl
  | cons nm rest ih =>
    intro t fl hK
    rw [List.foldl_cons]
    have hcond : ((f == "")
        && ((t.find? fun kv => toString kv.1 == nm).isSome)) = false := by
      rw [hf, Bool.false_and]
    by_cases hemp : ((t.filter fun kv => itemMatchesField kv.2 f nm).map
        fun kv => kv.1).isEmpty = true
    · have hstep : deleteOneName (some f) (t, fl) nm = (t, fl) := by
        simp only [deleteOneName]
        rw [if_neg (by rw [hcond]; simp), if_pos hemp]
      rw [hstep, ih t fl hK]
      refine List.filter_congr ?_
      intro x hx
      have hfe : (t.filter fun kv => itemMatchesField kv.2 f nm) = [] :=
        List.map_eq_nil_iff.mp (List.isEmpty_iff.mp hemp)
      have hnm : itemMatchesField x.2 f nm = false := by
        by_contra hcne
        have hmem : x ∈ t.filter fun kv => itemMatchesField kv.2 f nm :=
          List.mem_filter.mpr ⟨hx, by simpa using hcne⟩
        rw [hfe] at hmem
        simp at hmem
      simp [List.any_cons, hnm]
    · have hstep : deleteOneName (some f) (t, fl) nm
          = (((t.filter fun kv => itemMatchesField kv.2 f nm).map
            fun kv => kv.1).foldl (fun tt i => popFirst (fun x => x.1 == i) tt)
            t, true) := by
        simp only [deleteOneName]
        rw [if_neg (by rw [hcond]; simp), if_neg hemp]
      rw [hstep]
      rw [pops_eq_filter f nm t hK]
      have hK2 : (((t.filter fun kv => !(itemMatchesField kv.2 f nm)).map
          fun kv => kv.1).Nodup) :=
        List.Nodup.sublist (List.Sublist.map _ (List.filter_sublist _)) hK
      rw [ih _ true hK2]
      rw [List.filter_filter]
      refine List.filter_congr ?_
      intro x hx
      simp only [List.any_cons, Bool.not_or]
      exact Bool.and_comm _ _

/-- Claim C4 (witness): with four records inserted and id 2 deleted, the
allocator returns 5, and three further fresh insertions never reuse id 2;
a concrete table with greatest key 5 allocates 6. -/
theorem c4_next_id_witness :
    get_next_id (some (popFirst (fun kv => kv.1 == 2)
        (iterInsert ([] : Table Bool) true 4))) = 5
      ∧ (5 : Nat) ≠ 2
      ∧ 2 ∉ tableKeys (iterInsert (popFirst (fun kv => kv.1 == 2)
          (iterInsert ([] : Table Bool) true 4)) true 3)
      ∧ get_next_id (some [(1, true), (5, false)]) = 6 := by
  have h := c4_next_id_contract.2.2.2 Bool true 4 2 (by decide) (by decide)
  refine ⟨h.1, h.2.1, h.2.2 3, ?_⟩
  exact c4_next_id_contract.2.2.1 Bool [(1, true), (5, false)] 5 (by decide) (by decide)

/-- Claim C9 (counterexample): with the single item stored under id 1 and an
explicitly empty field string, `deleteitem` with name list `["1"]` removes the
record by its direct stringified id and saves, although the exact field query
for field `""` matches no record, so the claimed field-match mode would have
removed nothing and not saved. -/
theorem c9_counterexample :
    (deleteitem db_c9 (some "") ["1"]).2 = true
      ∧ (deleteitem db_c9 (some "") ["1"]).1.items.getD [] = []
      ∧ ((db_c9.items.getD []).filter fun kv =>
          !((["1"] : List String).any fun nm => itemMatchesField kv.2 "" nm))
        = db_c9.items.getD [] := by
  refine ⟨by decide, by decide, by decide⟩

/-- Claim C9 (amended): over item tables with pairwise distinct storage keys,
`deleteitem` saves exactly when the items table changed; with no field flag it
removes precisely the records whose stringified storage key occurs in the name
list; with a nonempty field it removes precisely the records matching the
exact field query for some listed name.  (With an explicitly empty field
string the code first attempts a direct-id pop, as the counterexample
records.) -/
theorem c9_amended (db : Database) (ns : List String)
    (hK : ((db.items.getD []).map fun kv => kv.1).Nodup)
    (hS : ((db.items.getD []).map fun kv => toString kv.1).Nodup) :
    (∀ field : Option String, ((deleteitem db field ns).2 = true ↔
        (deleteitem db field ns).1.items.getD [] ≠ db.items.getD []))
    ∧ ((deleteitem db none ns).1.items.getD []
        = (db.items.getD []).filter fun kv => !(ns.contains (toString kv.1)))
    ∧ ∀ f : String, (f == "") = false →
        (deleteitem db (some f) ns).1.items.getD []
          = (db.items.getD []).filter fun kv =>
              !(ns.any fun nm => itemMatchesField kv.2 f nm) := by
  refine ⟨fun field => deleteitem_saved_iff db field ns, ?_, ?_⟩
  · show (ns.foldl (deleteOneName none) (db.items.getD [], false)).1 = _
    exact deleteitem_direct_fold ns (db.items.getD []) false hS
  · intro f hf
    show (ns.foldl (deleteOneName (some f)) (db.items.getD [], false)).1 = _
    exact deleteitem_field_fold f hf ns (db.items.getD []) false hK

/-- Claim C9 (witness): the amended characterization evaluated on the two-item
fixture database, deleting by direct id `1` and by the exact `name` query
`Item B`. -/
theorem c9_amended_witness :
    ((deleteitem db_c2 none ["1"]).2 = true ↔
      (deleteitem db_c2 none ["1"]).1.items.getD [] ≠ db_c2.items.getD [])
    ∧ ((deleteitem db_c2 none ["1"]).1.items.getD []
        = (db_c2.items.getD []).filter fun kv =>
            !((["1"] : List String).contains (toString kv.1)))
    ∧ (deleteitem db_c2 (some "name") ["Item B"]).1.items.getD []
        = (db_c2.items.getD []).filter fun kv =>
            !((["Item B"] : List String).any fun nm =>
              itemMatchesField kv.2 "name" nm) := by
  have h1 := c9_amended db_c2 ["1"] (by decide) (by decide)
  have h2 := c9_amended db_c2 ["Item B"] (by decide) (by decide)
  exact ⟨h1.1 none, h1.2.1, h2.2.2 "name" (by decide)⟩

end GachaEditor
